import Mathlib

/-!
JSON-RPC demo server (`json-rpc-demo/server/main.go`).

A shallow embedding of the dispatcher of the JSON-RPC 2.0 demo server and
theorems about it.

Conventions of the embedding:

* A byte string handed to `json.Unmarshal` is represented by what the scanner of
  `encoding/json` makes of it: nothing (`Bytes.empty`), a syntax error
  (`Bytes.invalid`) or the syntax tree of one well-formed JSON text
  (`Bytes.text`).  Object members keep their order and their duplicates, number
  literals keep their decimal form.
* `float64` is modelled exactly (sign, integer significand, binary exponent), with
  round-to-nearest-even, as IEEE-754 binary64 arithmetic and `strconv.ParseFloat` do.
* A Go pointer is an `Option`; a value of type `any` is a `GoValue`, `nil` included.
* The `context.Context` argument is dropped: no function of the server reads it.
* The package variable `methodRegistry` is passed explicitly to `dispatchRequest`.
* An `http.ResponseWriter` is represented by what is written to it (`Written`), the body
  of an HTTP request by what `rpcHandler` observes of it (`Body`).
-/

namespace JsonRpc

/-! ## float64 -/

/-- A `float64` value: `fin neg m e` is `(-1)^neg * m * 2^e`. The values produced by
`Float64.round` are canonical: a zero is `fin neg 0 0`, and otherwise `0 < m < 2^53`,
`-1074 ≤ e ≤ 971`, and `2^52 ≤ m` unless `e = -1074`. -/
inductive Float64 where
  | fin (neg : Bool) (m : Nat) (e : Int)
  | inf (neg : Bool)
  | nan
  deriving DecidableEq, Repr

namespace Float64

/-- The value `+0`, the zero value of Go's `float64`. -/
def zero : Float64 := .fin false 0 0

/-- Number of binary digits of `n`, by halving at most `fuel` times. -/
def bitsAux : Nat → Nat → Nat
  | 0, _ => 0
  | fuel + 1, n => if n = 0 then 0 else bitsAux fuel (n / 2) + 1

/-- Number of binary digits of `n` (`0` for `0`). -/
def bits (n : Nat) : Nat := bitsAux n n

/-- The integer `floor (log2 (p / q))` for positive `p` and `q`. -/
def floorLog2 (p q : Nat) : Int :=
  let d : Int := (bits p : Int) - (bits q : Int)
  if q * 2 ^ d.toNat ≤ p * 2 ^ (-d).toNat then d else d - 1

/-- Round-to-nearest, ties-to-even, of the rational `(-1)^neg * p / q` (`q > 0`) to
binary64; a magnitude that rounds to `2^1024` or more gives an infinity. -/
def round (neg : Bool) (p q : Nat) : Float64 :=
  if p = 0 then .fin neg 0 0 else
  let e : Int := max (floorLog2 p q - 52) (-1074)
  let n : Nat := p * 2 ^ (-e).toNat
  let d : Nat := q * 2 ^ e.toNat
  let m0 : Nat := n / d
  let r : Nat := n % d
  let m : Nat := if d < 2 * r ∨ (2 * r = d ∧ m0 % 2 = 1) then m0 + 1 else m0
  let m1 : Nat := if m = 2 ^ 53 then 2 ^ 52 else m
  let e1 : Int := if m = 2 ^ 53 then e + 1 else e
  if 971 < e1 then .inf neg else .fin neg m1 e1

/-- The signed integer `s` with `x = s * 2^e`, for an exponent `e` not above that of `x`. -/
def scaled (neg : Bool) (m : Nat) (ex e : Int) : Int :=
  (if neg then -1 else 1) * ((m * 2 ^ (ex - e).toNat : Nat) : Int)

/-- The `+` of `float64`. -/
def add : Float64 → Float64 → Float64
  | .fin na ma ea, .fin nb mb eb =>
    let e := min ea eb
    let s := scaled na ma ea e + scaled nb mb eb e
    if s = 0 then .fin (na && nb) 0 0
    else round (decide (s < 0)) (s.natAbs * 2 ^ e.toNat) (2 ^ (-e).toNat)
  | .fin _ _ _, .inf b => .inf b
  | .inf a, .fin _ _ _ => .inf a
  | .inf a, .inf b => if a = b then .inf a else .nan
  | .nan, _ => .nan
  | _, .nan => .nan

/-- The `==` of `float64`: equal values, `+0 == -0`, and `NaN` equal to nothing. -/
def eq : Float64 → Float64 → Bool
  | .fin na ma ea, .fin nb mb eb =>
    let e := min ea eb
    decide (scaled na ma ea e = scaled nb mb eb e)
  | .inf a, .inf b => a == b
  | _, _ => false

/-- The integer part of a finite value (truncation towards zero). -/
def trunc : Float64 → Option Int
  | .fin neg m e =>
    let a : Nat := m * 2 ^ e.toNat / 2 ^ (-e).toNat
    some (if neg then -(a : Int) else (a : Int))
  | _ => none

/-- Conversion `float64(i)` of an `int64` value. -/
def ofInt (i : Int) : Float64 := round (decide (i < 0)) i.natAbs 1

end Float64

/-- Wrap an integer into the range of `int64`. -/
def wrapInt64 (i : Int) : Int := (i + 2 ^ 63) % 2 ^ 64 - 2 ^ 63

/-- Conversion `int64(x)` of a `float64`. A value whose integer part fits `int64` is
truncated; otherwise the Go specification leaves the result to the implementation, which
is the parameter `impl` (amd64 gives `-2^63`, arm64 saturates). -/
def toInt64 (impl : Float64 → Int) (x : Float64) : Int :=
  match x.trunc with
  | some i => if -2 ^ 63 ≤ i ∧ i < 2 ^ 63 then i else wrapInt64 (impl x)
  | none => wrapInt64 (impl x)

/-! ## JSON texts and Go values -/

/-- A JSON number literal, `(-1)^neg * mant * 10^exp10`: `1.0` is `⟨false, 10, -1⟩`. -/
structure JNumber where
  neg : Bool
  mant : Nat
  exp10 : Int
  deriving DecidableEq, Repr

/-- Syntax tree of a well-formed JSON text. Strings and member names are decoded. -/
inductive JSON where
  | null
  | bool (b : Bool)
  | num (n : JNumber)
  | str (s : String)
  | arr (items : List JSON)
  | obj (members : List (String × JSON))
  deriving Repr

/-- A byte string as `encoding/json` scans it. -/
inductive Bytes where
  | empty
  | invalid
  | text (j : JSON)
  deriving Repr

/-- The type `json.RawMessage` (a byte slice; `nil` is `Bytes.empty`). -/
abbrev RawMessage := Bytes

/-- A value of Go type `any` as this program builds them. A map is an association list
with distinct keys. -/
inductive GoValue where
  | nil
  | bool (b : Bool)
  | float64 (f : Float64)
  | int64 (i : Int)
  | string (s : String)
  | slice (xs : List GoValue)
  | map (kvs : List (String × GoValue))
  deriving Repr

/-- The call `strconv.ParseFloat(s, 64)` on a JSON number literal: the nearest `float64`,
or an error (`none`) when the literal is out of range. -/
def parseFloat (n : JNumber) : Option Float64 :=
  match Float64.round n.neg (n.mant * 10 ^ n.exp10.toNat) (10 ^ (-n.exp10).toNat) with
  | .fin neg m e => some (.fin neg m e)
  | _ => none

/-- Assignment `m[k] = v` on a map. -/
def mapSet : List (String × GoValue) → String → GoValue → List (String × GoValue)
  | [], k, v => [(k, v)]
  | (k0, v0) :: rest, k, v => if k0 = k then (k, v) :: rest else (k0, v0) :: mapSet rest k v

mutual
/-- The call `json.Unmarshal(data, &v)` for `var v any`, on a well-formed text; `none` when
it returns an error (a number out of the range of `float64`). -/
def decodeAny : JSON → Option GoValue
  | .null => some .nil
  | .bool b => some (.bool b)
  | .num n => (parseFloat n).map GoValue.float64
  | .str s => some (.string s)
  | .arr items => (decodeAnyList items).map GoValue.slice
  | .obj members =>
    (decodeAnyMembers members).map
      (fun kvs => GoValue.map (kvs.foldl (fun m kv => mapSet m kv.1 kv.2) []))
/-- Elements of an array decoded into `[]any`. -/
def decodeAnyList : List JSON → Option (List GoValue)
  | [] => some []
  | x :: xs =>
    match decodeAny x, decodeAnyList xs with
    | some v, some vs => some (v :: vs)
    | _, _ => none
/-- Members of an object decoded into key/value pairs, in order. -/
def decodeAnyMembers : List (String × JSON) → Option (List (String × GoValue))
  | [] => some []
  | (k, x) :: rest =>
    match decodeAny x, decodeAnyMembers rest with
    | some v, some kvs => some ((k, v) :: kvs)
    | _, _ => none
end

/-- The call `json.Unmarshal(data, &v)` for `var v any`; `none` when it returns an error. -/
def unmarshalAny : Bytes → Option GoValue
  | .text j => decodeAny j
  | _ => none

/-! ## Decoding into the structs of the server -/

/-- Case folding of member names (`foldName` of `encoding/json`): ASCII letters to upper
case, and the two runes outside ASCII that fold to an ASCII letter (U+017F to `S`, U+212A
to `K`). Other runes outside ASCII are left alone; they occur in no field name here. -/
def foldRune (c : Char) : Char :=
  if c = Char.ofNat 0x17F then 'S' else if c = Char.ofNat 0x212A then 'K' else c.toUpper

/-- Folded form of a member name. -/
def foldName (s : String) : List Char := s.data.map foldRune

/-- Whether the object member `key` is stored into the struct field tagged `name`. -/
def keyIs (name key : String) : Bool := foldName key == foldName name

/-- Decode the members of an object one after the other into a struct; a member that
cannot be stored makes the whole call return an error. -/
def storeMembers {σ : Type} (step : σ → String → JSON → Option σ) :
    σ → List (String × JSON) → Option σ
  | s, [] => some s
  | s, (k, v) :: rest =>
    match step s k v with
    | some s1 => storeMembers step s1 rest
    | none => none

/-- Decode a value into a `string`: `null` leaves it as it is. -/
def storeString (cur : String) : JSON → Option String
  | .null => some cur
  | .str s => some s
  | _ => none

/-- Decode a value into a `float64`: `null` leaves it as it is. -/
def storeFloat64 (cur : Float64) : JSON → Option Float64
  | .null => some cur
  | .num n => parseFloat n
  | _ => none

/-- The request envelope. -/
structure rpcRequest where
  JSONRPC : String := ""
  Method : String := ""
  Params : RawMessage := .empty
  ID : Option RawMessage := none
  deriving Repr

/-- The error object. -/
structure rpcError where
  Code : Int
  Message : String
  Data : GoValue := .nil
  deriving Repr

/-- The response envelope. `Result` and `Error` are left out of the encoding when `nil`. -/
structure rpcResponse where
  JSONRPC : String
  Result : GoValue := .nil
  Error : Option rpcError := none
  ID : GoValue := .nil
  deriving Repr

/-- One member of a request object: `params` keeps the raw value, `id` is a pointer that
`null` resets to `nil`. -/
def storeRequestField (cur : rpcRequest) (key : String) (v : JSON) : Option rpcRequest :=
  if keyIs "jsonrpc" key then (storeString cur.JSONRPC v).map (fun s => { cur with JSONRPC := s })
  else if keyIs "method" key then (storeString cur.Method v).map (fun s => { cur with Method := s })
  else if keyIs "params" key then some { cur with Params := .text v }
  else if keyIs "id" key then
    some { cur with ID := match v with
                          | .null => none
                          | _ => some (.text v) }
  else some cur

/-- Decode a value into an `rpcRequest`. -/
def storeRequest (cur : rpcRequest) : JSON → Option rpcRequest
  | .null => some cur
  | .obj members => storeMembers storeRequestField cur members
  | _ => none

/-- The call `json.Unmarshal(body, &req)` for `var req rpcRequest`. -/
def unmarshalRequest : Bytes → Option rpcRequest
  | .text j => storeRequest {} j
  | _ => none

/-- Elements of an array decoded into a fresh `[]rpcRequest`. -/
def storeRequests : List JSON → Option (List rpcRequest)
  | [] => some []
  | x :: xs =>
    match storeRequest {} x, storeRequests xs with
    | some r, some rs => some (r :: rs)
    | _, _ => none

/-- The call `json.Unmarshal(body, &requests)` for `var requests []rpcRequest`. -/
def unmarshalRequests : Bytes → Option (List rpcRequest)
  | .text .null => some []
  | .text (.arr items) => storeRequests items
  | _ => none

/-- The struct `numbers` of `addNumbers`. -/
structure Numbers where
  A : Float64 := Float64.zero
  B : Float64 := Float64.zero
  deriving Repr

/-- One member of the params object of `math.add`. -/
def storeNumbersField (cur : Numbers) (key : String) (v : JSON) : Option Numbers :=
  if keyIs "a" key then (storeFloat64 cur.A v).map (fun x => { cur with A := x })
  else if keyIs "b" key then (storeFloat64 cur.B v).map (fun x => { cur with B := x })
  else some cur

/-- The call `json.Unmarshal(params, &numbers)`. -/
def unmarshalNumbers : Bytes → Option Numbers
  | .text .null => some {}
  | .text (.obj members) => storeMembers storeNumbersField {} members
  | _ => none

/-- Elements of an array decoded into a fresh `[]float64`. -/
def storeFloats : List JSON → Option (List Float64)
  | [] => some []
  | x :: xs =>
    match storeFloat64 Float64.zero x, storeFloats xs with
    | some f, some fs => some (f :: fs)
    | _, _ => none

/-- The call `json.Unmarshal(params, &values)` for `var values []float64`. -/
def unmarshalFloats : Bytes → Option (List Float64)
  | .text .null => some []
  | .text (.arr items) => storeFloats items
  | _ => none

/-- A `[]string` together with its backing array: `elems` are its elements, `spare` is
what the backing array holds past its length (the decoder reuses it). -/
structure StringSlice where
  elems : List String := []
  spare : List String := []
  deriving Repr

/-- Elements of an array decoded in place over a backing array: the decoded elements and
the rest of the backing array. -/
def storeStrings : List String → List JSON → Option (List String × List String)
  | backing, [] => some ([], backing)
  | backing, x :: xs =>
    match storeString (backing.headD "") x, storeStrings backing.tail xs with
    | some s, some (elems, rest) => some (s :: elems, rest)
    | _, _ => none

/-- Decode a value into a `[]string`. -/
def storeStringSlice (cur : StringSlice) : JSON → Option StringSlice
  | .null => some {}
  | .arr [] => some {}
  | .arr items => (storeStrings (cur.elems ++ cur.spare) items).map (fun p => ⟨p.1, p.2⟩)
  | _ => none

/-- The struct `args` of `concatText`. -/
structure ConcatArgs where
  Parts : StringSlice := {}
  Separator : String := ""
  deriving Repr

/-- One member of the params object of `text.concat`. -/
def storeConcatField (cur : ConcatArgs) (key : String) (v : JSON) : Option ConcatArgs :=
  if keyIs "parts" key then (storeStringSlice cur.Parts v).map (fun p => { cur with Parts := p })
  else if keyIs "separator" key then
    (storeString cur.Separator v).map (fun s => { cur with Separator := s })
  else some cur

/-- The call `json.Unmarshal(params, &args)`. -/
def unmarshalConcatArgs : Bytes → Option ConcatArgs
  | .text .null => some {}
  | .text (.obj members) => storeMembers storeConcatField {} members
  | _ => none

/-! ## The server -/

/-- The constant `jsonRPCVersion`. -/
def jsonRPCVersion : String := "2.0"

/-- The type `methodFunc`: a handler gets the raw params and returns a result and an
error pointer. -/
abbrev methodFunc := RawMessage → GoValue × Option rpcError

/-- The handler of `math.add`. -/
def addNumbers (params : RawMessage) : GoValue × Option rpcError :=
  match unmarshalNumbers params with
  | none => (.nil, some { Code := -32602, Message := "expected params object with 'a' and 'b'" })
  | some numbers => (.map [("sum", .float64 (numbers.A.add numbers.B))], none)

/-- The handler of `math.sum`. -/
def sumSlice (params : RawMessage) : GoValue × Option rpcError :=
  match unmarshalFloats params with
  | none => (.nil, some { Code := -32602, Message := "expected params array of numbers" })
  | some values =>
    let sum := values.foldl (fun sum v => sum.add v) Float64.zero
    (.map [("sum", .float64 sum)], none)

/-- The handler of `text.concat`. -/
def concatText (params : RawMessage) : GoValue × Option rpcError :=
  match unmarshalConcatArgs params with
  | none =>
    (.nil, some { Code := -32602,
                  Message := "expected params object with 'parts' and optional 'separator'" })
  | some args =>
    if args.Parts.elems.length = 0 then
      (.nil, some { Code := -32602, Message := "parts must contain at least one string" })
    else
      let separator := if args.Separator = "" then " " else args.Separator
      (.map [("text", .string (String.intercalate separator args.Parts.elems))], none)

/-- A value of the map type of `methodRegistry`. -/
abbrev Registry := List (String × methodFunc)

/-- The lookup `registry[name]` with its `ok` flag. -/
def Registry.get (registry : Registry) (name : String) : Option methodFunc :=
  registry.lookup name

/-- The variable `methodRegistry` as `init` leaves it. -/
def methodRegistry : Registry :=
  [("math.add", addNumbers), ("math.sum", sumSlice), ("text.concat", concatText)]

/-- The function `decodeID`. -/
def decodeID (impl : Float64 → Int) (raw : Option RawMessage) : GoValue :=
  match raw with
  | none => .nil
  | some data =>
    match unmarshalAny data with
    | none => .nil
    | some v =>
      match v with
      | .float64 val =>
        if val.eq (Float64.ofInt (toInt64 impl val)) then .int64 (toInt64 impl val) else v
      | _ => v

/-- The function `dispatchRequest`; `none` is the `nil` response. -/
def dispatchRequest (impl : Float64 → Int) (registry : Registry) (req : rpcRequest) :
    Option rpcResponse :=
  let idValue := decodeID impl req.ID
  if req.JSONRPC ≠ jsonRPCVersion then
    some { JSONRPC := jsonRPCVersion,
           Error := some { Code := -32600, Message := "jsonrpc field must be \"2.0\"" },
           ID := idValue }
  else if req.Method = "" then
    some { JSONRPC := jsonRPCVersion,
           Error := some { Code := -32600, Message := "method is required" },
           ID := idValue }
  else
    match registry.get req.Method with
    | none =>
      some { JSONRPC := jsonRPCVersion,
             Error := some { Code := -32601, Message := "method not found" },
             ID := idValue }
    | some handler =>
      match handler req.Params with
      | (_, some rpcErr) => some { JSONRPC := jsonRPCVersion, Error := some rpcErr, ID := idValue }
      | (result, none) =>
        if req.ID.isNone then none
        else some { JSONRPC := jsonRPCVersion, Result := result, ID := idValue }

/-- What is encoded into the body of an HTTP response. -/
inductive Payload where
  | response (resp : rpcResponse)
  | responses (resps : List rpcResponse)
  | plain (message : String)
  deriving Repr

/-- What a handler has written to its `http.ResponseWriter`: the status and the payload
given to the encoder, if any. -/
structure Written where
  status : Nat
  payload : Option Payload
  deriving Repr

/-- The function `writeJSON`. -/
def writeJSON (status : Nat) (payload : Payload) : Written :=
  { status := status, payload := some payload }

/-- The function `writeError`. -/
def writeError (status : Nat) (err : rpcError) (id : GoValue) : Written :=
  writeJSON status (.response { JSONRPC := jsonRPCVersion, Error := some err, ID := id })

/-- The call `w.WriteHeader(http.StatusNoContent)`, nothing else being written. -/
def noContent : Written := { status := 204, payload := none }

/-- The loop of `handleBatch` that collects the responses. -/
def collectResponses (impl : Float64 → Int) (registry : Registry) (requests : List rpcRequest) :
    List rpcResponse :=
  requests.foldl
    (fun responses req =>
      match dispatchRequest impl registry req with
      | some resp => responses ++ [resp]
      | none => responses)
    []

/-- The function `handleBatch`. -/
def handleBatch (impl : Float64 → Int) (registry : Registry) (body : Bytes) : Written :=
  match unmarshalRequests body with
  | none => writeError 400 { Code := -32700, Message := "invalid JSON batch" } .nil
  | some requests =>
    let responses := collectResponses impl registry requests
    if responses.length = 0 then noContent
    else writeJSON 200 (.responses responses)

/-- The bytes read from the body of an HTTP request, as `rpcHandler` looks at them:
`blank` when `strings.TrimSpace` leaves nothing; `broken bracket` when they are not blank and
not a well-formed JSON text, `bracket` telling whether the trimmed text starts with `[`;
`text j` when they are the well-formed JSON text `j`, which starts with `[` exactly when `j`
is an array. -/
inductive Body where
  | blank
  | broken (bracket : Bool)
  | text (j : JSON)
  deriving Repr

/-- The bytes of a body as `json.Unmarshal` scans them. -/
def Body.bytes : Body → Bytes
  | .blank => .empty
  | .broken _ => .invalid
  | .text j => .text j

/-- The test `trimmed == ""`. -/
def Body.isBlank : Body → Bool
  | .blank => true
  | _ => false

/-- The test `strings.HasPrefix(trimmed, "[")`. -/
def Body.hasBracket : Body → Bool
  | .broken bracket => bracket
  | .text (.arr _) => true
  | _ => false

/-- What `rpcHandler` reads of its `*http.Request`: the method, and the body as
`io.ReadAll` returns it behind the limit of `1<<20` bytes (`none` when reading fails). -/
structure HTTPRequest where
  Method : String
  Body : Option Body
  deriving Repr

/-- The function `rpcHandler`. -/
def rpcHandler (impl : Float64 → Int) (registry : Registry) (r : HTTPRequest) : Written :=
  if r.Method ≠ "POST" then
    { status := 405, payload := some (.plain "JSON-RPC endpoint only accepts POST requests") }
  else
    match r.Body with
    | none => writeError 400 { Code := -32700, Message := "failed to read request" } .nil
    | some body =>
      if body.isBlank then
        writeError 400 { Code := -32700, Message := "empty request body" } .nil
      else if body.hasBracket then handleBatch impl registry body.bytes
      else
        match unmarshalRequest body.bytes with
        | none => writeError 400 { Code := -32700, Message := "invalid JSON" } .nil
        | some req =>
          match dispatchRequest impl registry req with
          | none => noContent
          | some resp => writeJSON 200 (.response resp)

/-- The call `json.Marshal(req)` for an `rpcRequest`, as the struct tags direct it:
`jsonrpc` and `method` always, `params` unless the raw message is empty, `id` unless the
pointer is `nil`; `none` when a raw message is not a well-formed JSON text. A `nil` raw
message behind the `id` pointer is encoded as `null`. -/
def marshalRequest (req : rpcRequest) : Option JSON :=
  let params : Option (List (String × JSON)) :=
    match req.Params with
    | .empty => some []
    | .invalid => none
    | .text j => some [("params", j)]
  let id : Option (List (String × JSON)) :=
    match req.ID with
    | none => some []
    | some .empty => some [("id", .null)]
    | some .invalid => none
    | some (.text j) => some [("id", j)]
  match params, id with
  | some ps, some is =>
    some (.obj ([("jsonrpc", .str req.JSONRPC), ("method", .str req.Method)] ++ ps ++ is))
  | _, _ => none

/-- The rational number that a finite `float64` stands for (`0` otherwise). -/
def Float64.toRat : Float64 → ℚ
  | .fin neg m e => (if neg then -1 else 1) * (m : ℚ) * (2 : ℚ) ^ e
  | _ => 0

/-- The specification's wording of a join: the parts in order, with `sep` between
consecutive parts. It is compared with `strings.Join` (`String.intercalate`) of
`concatText`. -/
def joinedWith (sep : String) : List String → String
  | [] => ""
  | [p] => p
  | p :: q :: rest => p ++ sep ++ joinedWith sep (q :: rest)

/-- What the three handlers of the server return: either no result and an error of code
-32602 without data, or a result that is not `nil` and no error. -/
def HandlerOutcome (out : GoValue × Option rpcError) : Prop :=
  (∃ e, out = (.nil, some e) ∧ e.Code = -32602 ∧ e.Data = .nil) ∨
    (∃ r, out = (r, none) ∧ r ≠ .nil)

/-! ## Shared lemmas -/

theorem Registry.method_ne_empty {registry : Registry} {name : String} {handler : methodFunc}
    (hreg : registry.get "" = none) (hm : registry.get name = some handler) : name ≠ "" := by
  intro h
  rw [h, hreg] at hm
  cases hm

theorem dispatchRequest_handler (impl : Float64 → Int) (registry : Registry) (req : rpcRequest)
    (handler : methodFunc) (hv : req.JSONRPC = "2.0") (hne : req.Method ≠ "")
    (hm : registry.get req.Method = some handler) :
    dispatchRequest impl registry req =
      match handler req.Params with
      | (_, some rpcErr) =>
        some { JSONRPC := "2.0", Error := some rpcErr, ID := decodeID impl req.ID }
      | (result, none) =>
        if req.ID.isNone then none
        else some { JSONRPC := "2.0", Result := result, ID := decodeID impl req.ID } := by
  simp only [dispatchRequest, jsonRPCVersion, hv, hm, hne, ne_eq, not_true_eq_false, if_false]

theorem methodRegistry_get (name : String) :
    methodRegistry.get name =
      if name = "math.add" then some addNumbers
      else if name = "math.sum" then some sumSlice
      else if name = "text.concat" then some concatText
      else none := by
  simp only [methodRegistry, Registry.get, List.lookup]
  by_cases h1 : name = "math.add"
  · simp [h1]
  · by_cases h2 : name = "math.sum"
    · simp [h2]
    · by_cases h3 : name = "text.concat"
      · simp [h3]
      · have b1 : (name == "math.add") = false := by simpa using h1
        have b2 : (name == "math.sum") = false := by simpa using h2
        have b3 : (name == "text.concat") = false := by simpa using h3
        simp [h1, h2, h3, b1, b2, b3]

theorem methodRegistry_get_empty : methodRegistry.get "" = none := by
  rfl

theorem addNumbers_outcome (params : RawMessage) : HandlerOutcome (addNumbers params) := by
  unfold addNumbers
  cases unmarshalNumbers params with
  | none => exact Or.inl ⟨_, rfl, rfl, rfl⟩
  | some numbers => exact Or.inr ⟨_, rfl, by simp⟩

theorem sumSlice_outcome (params : RawMessage) : HandlerOutcome (sumSlice params) := by
  unfold sumSlice
  cases unmarshalFloats params with
  | none => exact Or.inl ⟨_, rfl, rfl, rfl⟩
  | some values => exact Or.inr ⟨_, rfl, by simp⟩

theorem concatText_outcome (params : RawMessage) : HandlerOutcome (concatText params) := by
  unfold concatText
  cases unmarshalConcatArgs params with
  | none => exact Or.inl ⟨_, rfl, rfl, rfl⟩
  | some args =>
    by_cases h : args.Parts.elems.length = 0
    · simp only [h, if_true]
      exact Or.inl ⟨_, rfl, rfl, rfl⟩
    · simp only [h, if_false]
      exact Or.inr ⟨_, rfl, by simp⟩

theorem methodRegistry_outcome {name : String} {handler : methodFunc}
    (hm : methodRegistry.get name = some handler) (params : RawMessage) :
    HandlerOutcome (handler params) := by
  rw [methodRegistry_get] at hm
  split at hm
  · cases hm; exact addNumbers_outcome params
  · split at hm
    · cases hm; exact sumSlice_outcome params
    · split at hm
      · cases hm; exact concatText_outcome params
      · cases hm

theorem decodeID_none (impl : Float64 → Int) : decodeID impl none = .nil := rfl

theorem dispatchRequest_version (impl : Float64 → Int) (registry : Registry) (req : rpcRequest)
    (hv : req.JSONRPC ≠ "2.0") :
    dispatchRequest impl registry req =
      some { JSONRPC := "2.0",
             Error := some { Code := -32600, Message := "jsonrpc field must be \"2.0\"" },
             ID := decodeID impl req.ID } := by
  simp only [dispatchRequest, jsonRPCVersion, hv, ne_eq, not_false_eq_true, if_true]

theorem dispatchRequest_no_method (impl : Float64 → Int) (registry : Registry)
    (req : rpcRequest) (hv : req.JSONRPC = "2.0") (hm : req.Method = "") :
    dispatchRequest impl registry req =
      some { JSONRPC := "2.0",
             Error := some { Code := -32600, Message := "method is required" },
             ID := decodeID impl req.ID } := by
  simp only [dispatchRequest, jsonRPCVersion, hv, hm, ne_eq, not_true_eq_false, if_false,
    if_true]

theorem dispatchRequest_unknown (impl : Float64 → Int) (registry : Registry)
    (req : rpcRequest) (hv : req.JSONRPC = "2.0") (hne : req.Method ≠ "")
    (hm : registry.get req.Method = none) :
    dispatchRequest impl registry req =
      some { JSONRPC := "2.0",
             Error := some { Code := -32601, Message := "method not found" },
             ID := decodeID impl req.ID } := by
  simp only [dispatchRequest, jsonRPCVersion, hv, hm, hne, ne_eq, not_true_eq_false, if_false]

theorem collect_foldl (impl : Float64 → Int) (registry : Registry) (requests : List rpcRequest)
    (acc : List rpcResponse) :
    requests.foldl
        (fun responses req =>
          match dispatchRequest impl registry req with
          | some resp => responses ++ [resp]
          | none => responses)
        acc =
      acc ++ requests.filterMap (dispatchRequest impl registry) := by
  induction requests generalizing acc with
  | nil => simp
  | cons req rest ih =>
    rw [List.foldl_cons, ih]
    cases h : dispatchRequest impl registry req with
    | none => simp [List.filterMap_cons, h]
    | some resp => simp [List.filterMap_cons, h]

theorem collectResponses_eq (impl : Float64 → Int) (registry : Registry)
    (requests : List rpcRequest) :
    collectResponses impl registry requests =
      requests.filterMap (dispatchRequest impl registry) := by
  unfold collectResponses
  rw [collect_foldl]
  simp

theorem filterMap_map_some_sublist {α β : Type} (f : α → Option β) (xs : List α) :
    ((xs.filterMap f).map some).Sublist (xs.map f) := by
  induction xs with
  | nil => simp
  | cons x rest ih =>
    cases h : f x with
    | none =>
      simp only [List.filterMap_cons, h, List.map_cons]
      exact List.Sublist.cons _ ih
    | some y =>
      simp only [List.filterMap_cons, h, List.map_cons]
      exact List.Sublist.cons₂ _ ih

/-! ## Theorems -/

/-- C1: a request with version "2.0", a registered method, an explicit id `X` and a handler
call that returns the result `r` and no error is answered with the response of id
`decodeID X`, result `r` and no error. The registry is any registry that, as
`methodRegistry`, registers nothing under the empty name. -/
theorem dispatchRequest_success (impl : Float64 → Int) (registry : Registry) (req : rpcRequest)
    (handler : methodFunc) (X : RawMessage) (r : GoValue)
    (hreg : registry.get "" = none)
    (hv : req.JSONRPC = "2.0")
    (hm : registry.get req.Method = some handler)
    (hid : req.ID = some X)
    (hh : handler req.Params = (r, none)) :
    dispatchRequest impl registry req =
      some { JSONRPC := "2.0", Result := r, Error := none, ID := decodeID impl (some X) } := by
  rw [dispatchRequest_handler impl registry req handler hv (Registry.method_ne_empty hreg hm) hm,
    hh, hid]
  rfl

/-- C1, at the request `math.sum` of `[1, 2, 3, 4.5]` with id `2`: the response carries the
sum `10.5` and the id `2`. -/
theorem dispatchRequest_success_witness :
    decodeID (fun _ => 0) (some (.text (.num ⟨false, 2, 0⟩))) = .int64 2 ∧
    dispatchRequest (fun _ => 0) methodRegistry
        { JSONRPC := "2.0", Method := "math.sum",
          Params := .text (.arr [.num ⟨false, 1, 0⟩, .num ⟨false, 2, 0⟩, .num ⟨false, 3, 0⟩,
            .num ⟨false, 45, -1⟩]),
          ID := some (.text (.num ⟨false, 2, 0⟩)) } =
      some { JSONRPC := "2.0",
             Result := .map [("sum", .float64 (.fin false 5910974510923776 (-49)))],
             Error := none,
             ID := decodeID (fun _ => 0) (some (.text (.num ⟨false, 2, 0⟩))) } :=
  ⟨rfl, dispatchRequest_success _ methodRegistry _ sumSlice _ _ rfl rfl rfl rfl rfl⟩

/-- C2, as stated, fails: a request without id whose version is "1.0" is answered, with
the error -32600 and a null id. -/
theorem notification_answered_counterexample :
    (({ JSONRPC := "1.0", Method := "text.concat",
        Params := .text (.obj [("parts", .arr [.str "hello"])]) } : rpcRequest).ID = none) ∧
    dispatchRequest (fun _ => 0) methodRegistry
        { JSONRPC := "1.0", Method := "text.concat",
          Params := .text (.obj [("parts", .arr [.str "hello"])]) } =
      some { JSONRPC := "2.0", Result := .nil,
             Error := some { Code := -32600, Message := "jsonrpc field must be \"2.0\"",
                             Data := .nil },
             ID := .nil } :=
  ⟨rfl, rfl⟩

/-- C2, amended: for a request without id, a version other than "2.0", an empty method and
an unregistered method are each answered with the error of that check and a null id, and a
request with version "2.0", a registered method and a handler call that succeeds gets no
response. -/
theorem notification_dispatch (impl : Float64 → Int) (registry : Registry) (req : rpcRequest)
    (hreg : registry.get "" = none) (hid : req.ID = none) :
    (req.JSONRPC ≠ "2.0" →
      dispatchRequest impl registry req =
        some { JSONRPC := "2.0", Result := .nil,
               Error := some { Code := -32600, Message := "jsonrpc field must be \"2.0\"" },
               ID := .nil }) ∧
    (req.JSONRPC = "2.0" → req.Method = "" →
      dispatchRequest impl registry req =
        some { JSONRPC := "2.0", Result := .nil,
               Error := some { Code := -32600, Message := "method is required" },
               ID := .nil }) ∧
    (req.JSONRPC = "2.0" → req.Method ≠ "" → registry.get req.Method = none →
      dispatchRequest impl registry req =
        some { JSONRPC := "2.0", Result := .nil,
               Error := some { Code := -32601, Message := "method not found" },
               ID := .nil }) ∧
    (∀ (handler : methodFunc) (r : GoValue), req.JSONRPC = "2.0" →
      registry.get req.Method = some handler → handler req.Params = (r, none) →
      dispatchRequest impl registry req = none) := by
  refine ⟨fun hv => ?_, fun hv hm => ?_, fun hv hne hm => ?_, fun handler r hv hm hh => ?_⟩
  · rw [dispatchRequest_version impl registry req hv, hid]; rfl
  · rw [dispatchRequest_no_method impl registry req hv hm, hid]; rfl
  · rw [dispatchRequest_unknown impl registry req hv hne hm, hid]; rfl
  · rw [dispatchRequest_handler impl registry req handler hv
      (Registry.method_ne_empty hreg hm) hm, hh, hid]
    rfl

/-- C2, amended, at the request `math.divide` without id: it is answered with the error
-32601 and a null id. -/
theorem notification_dispatch_witness :
    dispatchRequest (fun _ => 0) methodRegistry { JSONRPC := "2.0", Method := "math.divide" } =
      some { JSONRPC := "2.0", Result := .nil,
             Error := some { Code := -32601, Message := "method not found" },
             ID := .nil } :=
  (notification_dispatch (fun _ => 0) methodRegistry
    { JSONRPC := "2.0", Method := "math.divide" } rfl rfl).2.2.1 rfl (by decide) rfl

/-- C3: a request with version "2.0", no id, a registered method and a handler call that
succeeds gets no response. -/
theorem notification_success_silent (impl : Float64 → Int) (registry : Registry)
    (req : rpcRequest) (handler : methodFunc) (r : GoValue)
    (hreg : registry.get "" = none)
    (hv : req.JSONRPC = "2.0")
    (hid : req.ID = none)
    (hm : registry.get req.Method = some handler)
    (hh : handler req.Params = (r, none)) :
    dispatchRequest impl registry req = none := by
  rw [dispatchRequest_handler impl registry req handler hv (Registry.method_ne_empty hreg hm) hm,
    hh, hid]
  rfl

/-- C3, at the notification `text.concat` of `{"parts":["hello","json-rpc"]}`: the handler
returns the text `hello json-rpc`, and the request gets no response. -/
theorem notification_success_silent_witness :
    concatText (.text (.obj [("parts", .arr [.str "hello", .str "json-rpc"])])) =
      (.map [("text", .string "hello json-rpc")], none) ∧
    dispatchRequest (fun _ => 0) methodRegistry
        { JSONRPC := "2.0", Method := "text.concat",
          Params := .text (.obj [("parts", .arr [.str "hello", .str "json-rpc"])]),
          ID := none } = none :=
  ⟨rfl, notification_success_silent _ methodRegistry _ concatText
    (.map [("text", .string "hello json-rpc")]) rfl rfl rfl rfl rfl⟩

/-- C4: a request whose version is not exactly "2.0" is answered with the error -32600 and
no result, whatever its method and params and whatever the registry holds. -/
theorem invalid_version_rejected (impl : Float64 → Int) (registry : Registry)
    (req : rpcRequest) (hv : req.JSONRPC ≠ "2.0") :
    dispatchRequest impl registry req =
      some { JSONRPC := "2.0", Result := .nil,
             Error := some { Code := -32600, Message := "jsonrpc field must be \"2.0\"",
                             Data := .nil },
             ID := decodeID impl req.ID } :=
  dispatchRequest_version impl registry req hv

/-- C4, at a request `math.add` with id `1` and no version at all. -/
theorem invalid_version_rejected_witness :
    dispatchRequest (fun _ => 0) methodRegistry
        { JSONRPC := "", Method := "math.add",
          Params := .text (.obj [("a", .num ⟨false, 2, 0⟩), ("b", .num ⟨false, 3, 0⟩)]),
          ID := some (.text (.num ⟨false, 1, 0⟩)) } =
      some { JSONRPC := "2.0", Result := .nil,
             Error := some { Code := -32600, Message := "jsonrpc field must be \"2.0\"",
                             Data := .nil },
             ID := decodeID (fun _ => 0) (some (.text (.num ⟨false, 1, 0⟩))) } :=
  invalid_version_rejected _ methodRegistry _ (by decide)

/-- C5: a request with version "2.0" and an empty method is answered with the error -32600,
not -32601, and the normalized id, whatever the registry holds: neither the registry nor a
handler has a say. -/
theorem empty_method_rejected (impl : Float64 → Int) (registry : Registry)
    (req : rpcRequest) (hv : req.JSONRPC = "2.0") (hm : req.Method = "") :
    dispatchRequest impl registry req =
        some { JSONRPC := "2.0", Result := .nil,
               Error := some { Code := -32600, Message := "method is required", Data := .nil },
               ID := decodeID impl req.ID } ∧
      ∀ resp e, dispatchRequest impl registry req = some resp → resp.Error = some e →
        e.Code = -32600 ∧ e.Code ≠ -32601 := by
  have h := dispatchRequest_no_method impl registry req hv hm
  refine ⟨h, fun resp e hresp he => ?_⟩
  rw [h] at hresp
  cases hresp
  cases he
  exact ⟨rfl, by decide⟩

/-- C5, at a request with id `"x"` and a registry that has a handler under the empty name:
the handler is not called. -/
theorem empty_method_rejected_witness :
    (dispatchRequest (fun _ => 0) [("", fun _ => (.string "called", none))]
        { JSONRPC := "2.0", Method := "", ID := some (.text (.str "x")) } =
      some { JSONRPC := "2.0", Result := .nil,
             Error := some { Code := -32600, Message := "method is required", Data := .nil },
             ID := decodeID (fun _ => 0) (some (.text (.str "x"))) }) ∧
    decodeID (fun _ => 0) (some (.text (.str "x"))) = .string "x" :=
  ⟨(empty_method_rejected (fun _ => 0) [("", fun _ => (.string "called", none))]
      { JSONRPC := "2.0", Method := "", ID := some (.text (.str "x")) } rfl rfl).1, rfl⟩

/-- C6: a request with version "2.0" and a non-empty method that the registry does not hold
is answered with the error -32601 "method not found", no result and the normalized id; and
no request that names `math.add`, `math.sum` or `text.concat` is answered with the code
-32601. -/
theorem unknown_method_rejected (impl : Float64 → Int) :
    (∀ (registry : Registry) (req : rpcRequest),
      req.JSONRPC = "2.0" → req.Method ≠ "" → registry.get req.Method = none →
      dispatchRequest impl registry req =
        some { JSONRPC := "2.0", Result := .nil,
               Error := some { Code := -32601, Message := "method not found", Data := .nil },
               ID := decodeID impl req.ID }) ∧
    (∀ (req : rpcRequest) (resp : rpcResponse) (e : rpcError),
      req.Method = "math.add" ∨ req.Method = "math.sum" ∨ req.Method = "text.concat" →
      dispatchRequest impl methodRegistry req = some resp → resp.Error = some e →
      e.Code ≠ -32601) := by
  refine ⟨fun registry req hv hne hm => dispatchRequest_unknown impl registry req hv hne hm,
    fun req resp e hname hresp he => ?_⟩
  by_cases hv : req.JSONRPC = "2.0"
  · obtain ⟨handler, hm⟩ : ∃ handler, methodRegistry.get req.Method = some handler := by
      rcases hname with h | h | h <;> rw [h]
      · exact ⟨addNumbers, rfl⟩
      · exact ⟨sumSlice, rfl⟩
      · exact ⟨concatText, rfl⟩
    rw [dispatchRequest_handler impl methodRegistry req handler hv
      (Registry.method_ne_empty methodRegistry_get_empty hm) hm] at hresp
    rcases methodRegistry_outcome hm req.Params with ⟨e1, hout, hcode, _⟩ | ⟨r, hout, _⟩
    · rw [hout] at hresp
      cases hresp
      cases he
      rw [hcode]
      decide
    · rw [hout] at hresp
      by_cases hid : req.ID.isNone = true
      · simp [hid] at hresp
      · simp only [hid] at hresp
        cases hresp
        cases he
  · rw [dispatchRequest_version impl methodRegistry req hv] at hresp
    cases hresp
    cases he
    decide

/-- C6, at the request `math.divide` of `{"a":4,"b":0}` with id `3`: the response is the
error -32601 "method not found" with id `3`. -/
theorem unknown_method_rejected_witness :
    decodeID (fun _ => 0) (some (.text (.num ⟨false, 3, 0⟩))) = .int64 3 ∧
    dispatchRequest (fun _ => 0) methodRegistry
        { JSONRPC := "2.0", Method := "math.divide",
          Params := .text (.obj [("a", .num ⟨false, 4, 0⟩), ("b", .num ⟨false, 0, 0⟩)]),
          ID := some (.text (.num ⟨false, 3, 0⟩)) } =
      some { JSONRPC := "2.0", Result := .nil,
             Error := some { Code := -32601, Message := "method not found", Data := .nil },
             ID := decodeID (fun _ => 0) (some (.text (.num ⟨false, 3, 0⟩))) } :=
  ⟨rfl, (unknown_method_rejected (fun _ => 0)).1 methodRegistry _ rfl (by decide) rfl⟩

/-- C7: a request with version "2.0", a registered method and an explicit id `X` whose
handler returns the error object `e` is answered with exactly `e` as error, no result and
the id `decodeID X`. The registry is any registry that, as `methodRegistry`, registers
nothing under the empty name. -/
theorem handler_error_returned (impl : Float64 → Int) (registry : Registry) (req : rpcRequest)
    (handler : methodFunc) (X : RawMessage) (r : GoValue) (e : rpcError)
    (hreg : registry.get "" = none)
    (hv : req.JSONRPC = "2.0")
    (hm : registry.get req.Method = some handler)
    (hid : req.ID = some X)
    (hh : handler req.Params = (r, some e)) :
    dispatchRequest impl registry req =
      some { JSONRPC := "2.0", Result := .nil, Error := some e, ID := decodeID impl (some X) } := by
  rw [dispatchRequest_handler impl registry req handler hv (Registry.method_ne_empty hreg hm) hm,
    hh, hid]

/-- C7, at the request `text.concat` of `{"parts":[]}` with id `7`. -/
theorem handler_error_returned_witness :
    decodeID (fun _ => 0) (some (.text (.num ⟨false, 7, 0⟩))) = .int64 7 ∧
    dispatchRequest (fun _ => 0) methodRegistry
        { JSONRPC := "2.0", Method := "text.concat",
          Params := .text (.obj [("parts", .arr [])]),
          ID := some (.text (.num ⟨false, 7, 0⟩)) } =
      some { JSONRPC := "2.0", Result := .nil,
             Error := some { Code := -32602, Message := "parts must contain at least one string",
                             Data := .nil },
             ID := decodeID (fun _ => 0) (some (.text (.num ⟨false, 7, 0⟩))) } :=
  ⟨rfl, handler_error_returned _ methodRegistry _ concatText _ .nil _ rfl rfl rfl rfl rfl⟩

/-- C8: a response of `dispatchRequest` with the three registered handlers carries exactly
one of result and error: a result and no error, or an error and no result. -/
theorem response_result_xor_error (impl : Float64 → Int) (req : rpcRequest)
    (resp : rpcResponse) (h : dispatchRequest impl methodRegistry req = some resp) :
    (resp.Result ≠ .nil ∧ resp.Error = none) ∨ (resp.Result = .nil ∧ resp.Error ≠ none) := by
  by_cases hv : req.JSONRPC = "2.0"
  · by_cases hne : req.Method = ""
    · rw [dispatchRequest_no_method impl methodRegistry req hv hne] at h
      cases h
      exact Or.inr ⟨rfl, by simp⟩
    · cases hm : methodRegistry.get req.Method with
      | none =>
        rw [dispatchRequest_unknown impl methodRegistry req hv hne hm] at h
        cases h
        exact Or.inr ⟨rfl, by simp⟩
      | some handler =>
        rw [dispatchRequest_handler impl methodRegistry req handler hv hne hm] at h
        rcases methodRegistry_outcome hm req.Params with ⟨e1, hout, _, _⟩ | ⟨r, hout, hr⟩
        · rw [hout] at h
          cases h
          exact Or.inr ⟨rfl, by simp⟩
        · rw [hout] at h
          by_cases hid : req.ID.isNone = true
          · simp [hid] at h
          · simp only [hid] at h
            cases h
            exact Or.inl ⟨hr, rfl⟩
  · rw [dispatchRequest_version impl methodRegistry req hv] at h
    cases h
    exact Or.inr ⟨rfl, by simp⟩

/-- C8, at the request `text.concat` of `{"parts":["a"]}` with id `"x"`: the response has a
result and no error. -/
theorem response_result_xor_error_witness :
    dispatchRequest (fun _ => 0) methodRegistry
        { JSONRPC := "2.0", Method := "text.concat",
          Params := .text (.obj [("parts", .arr [.str "a"])]),
          ID := some (.text (.str "x")) } =
      some { JSONRPC := "2.0", Result := .map [("text", .string "a")], Error := none,
             ID := .string "x" } ∧
    (((.map [("text", .string "a")] : GoValue) ≠ .nil ∧ (none : Option rpcError) = none) ∨
      ((.map [("text", .string "a")] : GoValue) = .nil ∧ (none : Option rpcError) ≠ none)) :=
  ⟨rfl,
    response_result_xor_error (fun _ => 0)
      { JSONRPC := "2.0", Method := "text.concat",
        Params := .text (.obj [("parts", .arr [.str "a"])]),
        ID := some (.text (.str "x")) }
      { JSONRPC := "2.0", Result := .map [("text", .string "a")], Error := none,
        ID := .string "x" }
      rfl⟩

/-- C9: `dispatchRequest` returns, for every request, registry and handlers, either no
response or a response, and every response has the version "2.0". -/
theorem dispatchRequest_total (impl : Float64 → Int) (registry : Registry) (req : rpcRequest) :
    dispatchRequest impl registry req = none ∨
      ∃ resp, dispatchRequest impl registry req = some resp ∧ resp.JSONRPC = "2.0" := by
  by_cases hv : req.JSONRPC = "2.0"
  · by_cases hne : req.Method = ""
    · exact Or.inr ⟨_, dispatchRequest_no_method impl registry req hv hne, rfl⟩
    · cases hm : registry.get req.Method with
      | none => exact Or.inr ⟨_, dispatchRequest_unknown impl registry req hv hne hm, rfl⟩
      | some handler =>
        rw [dispatchRequest_handler impl registry req handler hv hne hm]
        rcases hout : handler req.Params with ⟨r, _ | e⟩
        · by_cases hid : req.ID.isNone = true
          · simp [hid]
          · simp [hid]
        · simp
  · exact Or.inr ⟨_, dispatchRequest_version impl registry req hv, rfl⟩

/-- C10: for a batch that decodes to `requests`, the responses that `handleBatch` collects
are the responses of `dispatchRequest` on the elements, in input order, the elements without
response left out; they are written with status 200 (status 204 and no body when there is
none); their list is a sublist of the list of dispatch results and is not longer than the
batch. -/
theorem handleBatch_order (impl : Float64 → Int) (registry : Registry) (body : Bytes)
    (requests : List rpcRequest) (hbody : unmarshalRequests body = some requests) :
    collectResponses impl registry requests =
        requests.filterMap (dispatchRequest impl registry) ∧
      handleBatch impl registry body =
        (if (requests.filterMap (dispatchRequest impl registry)).length = 0 then noContent
         else writeJSON 200 (.responses (requests.filterMap (dispatchRequest impl registry)))) ∧
      ((requests.filterMap (dispatchRequest impl registry)).map some).Sublist
        (requests.map (dispatchRequest impl registry)) ∧
      (requests.filterMap (dispatchRequest impl registry)).length ≤ requests.length := by
  refine ⟨collectResponses_eq impl registry requests, ?_,
    filterMap_map_some_sublist _ requests, List.length_filterMap_le _ requests⟩
  simp only [handleBatch, hbody, collectResponses_eq]

/-- C10, at the batch of a `math.divide` call with id `1`, a `text.concat` notification
and a call without version and with id `"b"`: two responses, in the order of the calls. -/
theorem handleBatch_order_witness :
    handleBatch (fun _ => 0) methodRegistry
        (.text (.arr [
          .obj [("jsonrpc", .str "2.0"), ("method", .str "math.divide"),
                ("id", .num ⟨false, 1, 0⟩)],
          .obj [("jsonrpc", .str "2.0"), ("method", .str "text.concat"),
                ("params", .obj [("parts", .arr [.str "hello", .str "json-rpc"])])],
          .obj [("method", .str "math.add"), ("id", .str "b")]])) =
      writeJSON 200 (.responses [
        { JSONRPC := "2.0", Result := .nil,
          Error := some { Code := -32601, Message := "method not found", Data := .nil },
          ID := .int64 1 },
        { JSONRPC := "2.0", Result := .nil,
          Error := some { Code := -32600, Message := "jsonrpc field must be \"2.0\"",
                          Data := .nil },
          ID := .string "b" }]) :=
  (handleBatch_order (fun _ => 0) methodRegistry
    (.text (.arr [
      .obj [("jsonrpc", .str "2.0"), ("method", .str "math.divide"),
            ("id", .num ⟨false, 1, 0⟩)],
      .obj [("jsonrpc", .str "2.0"), ("method", .str "text.concat"),
            ("params", .obj [("parts", .arr [.str "hello", .str "json-rpc"])])],
      .obj [("method", .str "math.add"), ("id", .str "b")]]))
    [{ JSONRPC := "2.0", Method := "math.divide", ID := some (.text (.num ⟨false, 1, 0⟩)) },
     { JSONRPC := "2.0", Method := "text.concat",
       Params := .text (.obj [("parts", .arr [.str "hello", .str "json-rpc"])]) },
     { Method := "math.add", ID := some (.text (.str "b")) }]
    rfl).2.1

/-! ## Batches and top-level input -/

theorem storeRequests_none (pre post : List JSON) (x : JSON) (hx : storeRequest {} x = none) :
    storeRequests (pre ++ x :: post) = none := by
  induction pre with
  | nil => simp [storeRequests, hx]
  | cons y rest ih =>
    rw [List.cons_append, storeRequests, ih]
    cases storeRequest {} y <;> rfl

/-- C11, as stated, fails: in the batch of a `math.divide` call with id `1`, the number `5`
and a `math.divide` call with id `3`, the second element is no request object, and the
output is one error -32700 with a null id, not three entries. -/
theorem batch_isolation_counterexample :
    handleBatch (fun _ => 0) methodRegistry
        (.text (.arr [
          .obj [("jsonrpc", .str "2.0"), ("method", .str "math.divide"),
                ("id", .num ⟨false, 1, 0⟩)],
          .num ⟨false, 5, 0⟩,
          .obj [("jsonrpc", .str "2.0"), ("method", .str "math.divide"),
                ("id", .num ⟨false, 3, 0⟩)]])) =
      { status := 400,
        payload := some (.response
          { JSONRPC := "2.0", Result := .nil,
            Error := some { Code := -32700, Message := "invalid JSON batch", Data := .nil },
            ID := .nil }) } :=
  rfl

/-- C11, amended: a batch with an element that cannot be decoded as a request (a number, a
string, a boolean, an array, or any value that `storeRequest` rejects), and a body that is
not a well-formed JSON text, are answered with the single error -32700 "invalid JSON batch",
a null id and status 400, whatever the other elements are. -/
theorem batch_malformed_element (impl : Float64 → Int) (registry : Registry) :
    (∀ (pre post : List JSON) (x : JSON), storeRequest {} x = none →
      handleBatch impl registry (.text (.arr (pre ++ x :: post))) =
        writeError 400 { Code := -32700, Message := "invalid JSON batch" } .nil) ∧
    handleBatch impl registry .invalid =
      writeError 400 { Code := -32700, Message := "invalid JSON batch" } .nil ∧
    (∀ n, storeRequest {} (.num n) = none) ∧
    (∀ s, storeRequest {} (.str s) = none) ∧
    (∀ b, storeRequest {} (.bool b) = none) ∧
    (∀ items, storeRequest {} (.arr items) = none) := by
  refine ⟨fun pre post x hx => ?_, rfl, fun _ => rfl, fun _ => rfl, fun _ => rfl, fun _ => rfl⟩
  simp only [handleBatch, unmarshalRequests, storeRequests_none pre post x hx]

/-- C11, amended, at the batch of a `text.concat` call with id `1`, the string `oops` and
a `text.concat` call with id `3`. -/
theorem batch_malformed_element_witness :
    handleBatch (fun _ => 0) methodRegistry
        (.text (.arr ([
          .obj [("jsonrpc", .str "2.0"), ("method", .str "text.concat"),
                ("params", .obj [("parts", .arr [.str "a"])]), ("id", .num ⟨false, 1, 0⟩)]] ++
          .str "oops" ::
          [.obj [("jsonrpc", .str "2.0"), ("method", .str "text.concat"),
                 ("params", .obj [("parts", .arr [.str "b"])]), ("id", .num ⟨false, 3, 0⟩)]]))) =
      writeError 400 { Code := -32700, Message := "invalid JSON batch" } .nil :=
  (batch_malformed_element (fun _ => 0) methodRegistry).1 _ _ (.str "oops") rfl

/-- C12, as stated, fails: the empty batch `[]` is answered with status 204 and no body. -/
theorem empty_batch_counterexample :
    handleBatch (fun _ => 0) methodRegistry (.text (.arr [])) =
      { status := 204, payload := none } :=
  rfl

/-- C12, amended: the empty batch `[]` yields no content (status 204, no body), from
`handleBatch` and from `rpcHandler`: neither an error response nor an empty list. -/
theorem empty_batch_no_content (impl : Float64 → Int) (registry : Registry) :
    handleBatch impl registry (.text (.arr [])) = noContent ∧
    rpcHandler impl registry { Method := "POST", Body := some (.text (.arr [])) } = noContent ∧
    noContent = { status := 204, payload := none } :=
  ⟨rfl, rfl, rfl⟩

/-- C13: `handleBatch` never writes an empty list of responses; for a batch that decodes,
it signals no content (status 204, no body) when no element yields a response, and
otherwise writes the list of the responses, which is not empty, with status 200. -/
theorem handleBatch_never_empty_list (impl : Float64 → Int) (registry : Registry)
    (body : Bytes) :
    (handleBatch impl registry body).payload ≠ some (.responses []) ∧
    ∀ requests, unmarshalRequests body = some requests →
      (requests.filterMap (dispatchRequest impl registry) = [] →
        handleBatch impl registry body = { status := 204, payload := none }) ∧
      (requests.filterMap (dispatchRequest impl registry) ≠ [] →
        handleBatch impl registry body =
          { status := 200,
            payload := some (.responses (requests.filterMap (dispatchRequest impl registry))) }) := by
  have key : ∀ requests, unmarshalRequests body = some requests →
      (requests.filterMap (dispatchRequest impl registry) = [] →
        handleBatch impl registry body = { status := 204, payload := none }) ∧
      (requests.filterMap (dispatchRequest impl registry) ≠ [] →
        handleBatch impl registry body =
          { status := 200,
            payload := some (.responses (requests.filterMap (dispatchRequest impl registry))) }) := by
    intro requests hbody
    constructor
    · intro hnil
      simp [handleBatch, hbody, collectResponses_eq, hnil, noContent]
    · intro hne
      simp [handleBatch, hbody, collectResponses_eq, hne, writeJSON]
  refine ⟨?_, key⟩
  cases hbody : unmarshalRequests body with
  | none => simp [handleBatch, hbody, writeError, writeJSON]
  | some requests =>
    by_cases hnil : requests.filterMap (dispatchRequest impl registry) = []
    · rw [(key requests hbody).1 hnil]
      simp
    · rw [(key requests hbody).2 hnil]
      intro h
      simp only [Option.some.injEq, Payload.responses.injEq] at h
      exact hnil h

/-- C13, at a batch of two `text.concat` notifications: no content. -/
theorem handleBatch_never_empty_list_witness :
    handleBatch (fun _ => 0) methodRegistry
        (.text (.arr [
          .obj [("jsonrpc", .str "2.0"), ("method", .str "text.concat"),
                ("params", .obj [("parts", .arr [.str "a"])])],
          .obj [("jsonrpc", .str "2.0"), ("method", .str "text.concat"),
                ("params", .obj [("parts", .arr [.str "b"])])]])) =
      { status := 204, payload := none } :=
  ((handleBatch_never_empty_list (fun _ => 0) methodRegistry
      (.text (.arr [
        .obj [("jsonrpc", .str "2.0"), ("method", .str "text.concat"),
              ("params", .obj [("parts", .arr [.str "a"])])],
        .obj [("jsonrpc", .str "2.0"), ("method", .str "text.concat"),
              ("params", .obj [("parts", .arr [.str "b"])])]]))).2
    [{ JSONRPC := "2.0", Method := "text.concat",
       Params := .text (.obj [("parts", .arr [.str "a"])]) },
     { JSONRPC := "2.0", Method := "text.concat",
       Params := .text (.obj [("parts", .arr [.str "b"])]) }]
    rfl).1 rfl

/-! ## The id normalizer -/

namespace Float64

theorem bitsAux_zero (fuel : Nat) : bitsAux fuel 0 = 0 := by
  cases fuel <;> simp [bitsAux]

theorem bitsAux_spec (fuel n : Nat) (hle : n ≤ fuel) (hpos : 0 < n) :
    1 ≤ bitsAux fuel n ∧ 2 ^ (bitsAux fuel n - 1) ≤ n ∧ n < 2 ^ bitsAux fuel n := by
  induction fuel generalizing n with
  | zero => omega
  | succ fuel ih =>
    have hn : n ≠ 0 := by omega
    simp only [bitsAux, hn, if_false]
    by_cases h2 : n / 2 = 0
    · rw [h2, bitsAux_zero]
      have : n = 1 := by omega
      subst this
      simp
    · obtain ⟨h1, hlo, hhi⟩ := ih (n / 2) (by omega) (by omega)
      have hpow : 2 ^ bitsAux fuel (n / 2) = 2 * 2 ^ (bitsAux fuel (n / 2) - 1) := by
        rw [← pow_succ']
        congr 1
        omega
      refine ⟨by omega, ?_, ?_⟩
      · simp only [Nat.add_sub_cancel]
        omega
      · rw [pow_succ]
        omega

theorem bits_spec (n : Nat) (hpos : 0 < n) :
    1 ≤ bits n ∧ 2 ^ (bits n - 1) ≤ n ∧ n < 2 ^ bits n :=
  bitsAux_spec n n (le_refl n) hpos

theorem two_zpow_split (z : ℤ) :
    (2 : ℚ) ^ z = (2 : ℚ) ^ z.toNat / (2 : ℚ) ^ (-z).toNat := by
  rcases le_total 0 z with h | h
  · have h1 : (-z).toNat = 0 := Int.toNat_eq_zero.mpr (by omega)
    rw [h1, pow_zero, div_one, ← zpow_natCast, Int.toNat_of_nonneg h]
  · have h1 : z.toNat = 0 := Int.toNat_eq_zero.mpr h
    have h2 : ((-z).toNat : ℤ) = -z := Int.toNat_of_nonneg (by omega)
    rw [h1, pow_zero, ← zpow_natCast, h2, zpow_neg, one_div, inv_inv]

theorem floorLog2_lt (p q : Nat) (hp : 0 < p) (hq : 0 < q) :
    (p : ℚ) < (q : ℚ) * (2 : ℚ) ^ (floorLog2 p q + 1) := by
  obtain ⟨_, _, hphi⟩ := bits_spec p hp
  obtain ⟨hq1, hqlo, _⟩ := bits_spec q hq
  have hphi' : (p : ℚ) < (2 : ℚ) ^ (bits p : ℤ) := by
    rw [zpow_natCast]
    exact_mod_cast hphi
  have hqlo' : (2 : ℚ) ^ ((bits q : ℤ) - 1) ≤ (q : ℚ) := by
    have h : ((bits q - 1 : Nat) : ℤ) = (bits q : ℤ) - 1 := by omega
    rw [← h, zpow_natCast]
    exact_mod_cast hqlo
  have h2pos : ∀ z : ℤ, (0 : ℚ) < (2 : ℚ) ^ z := fun z => zpow_pos (by norm_num) z
  unfold floorLog2
  simp only
  split
  · have hsplit : (2 : ℚ) ^ (bits p : ℤ) =
        (2 : ℚ) ^ ((bits q : ℤ) - 1) * (2 : ℚ) ^ ((bits p : ℤ) - (bits q : ℤ) + 1) := by
      rw [← zpow_add₀ (by norm_num : (2 : ℚ) ≠ 0)]
      congr 1
      ring
    calc (p : ℚ) < (2 : ℚ) ^ (bits p : ℤ) := hphi'
      _ = (2 : ℚ) ^ ((bits q : ℤ) - 1) * (2 : ℚ) ^ ((bits p : ℤ) - (bits q : ℤ) + 1) := hsplit
      _ ≤ (q : ℚ) * (2 : ℚ) ^ ((bits p : ℤ) - (bits q : ℤ) + 1) :=
        mul_le_mul_of_nonneg_right hqlo' (le_of_lt (h2pos _))
  · rename_i hc
    have hc' : p * 2 ^ (-((bits p : ℤ) - (bits q : ℤ))).toNat <
        q * 2 ^ ((bits p : ℤ) - (bits q : ℤ)).toNat := Nat.lt_of_not_le hc
    have hcq : (p : ℚ) * (2 : ℚ) ^ (-((bits p : ℤ) - (bits q : ℤ))).toNat <
        (q : ℚ) * (2 : ℚ) ^ ((bits p : ℤ) - (bits q : ℤ)).toNat := by
      exact_mod_cast hc'
    have hden : (0 : ℚ) < (2 : ℚ) ^ (-((bits p : ℤ) - (bits q : ℤ))).toNat := by positivity
    rw [sub_add_cancel, two_zpow_split, ← mul_div_assoc, lt_div_iff₀ hden]
    exact hcq

theorem round_mant_lt (neg s : Bool) (p q m : Nat) (e : ℤ) (hq : 0 < q)
    (h : round neg p q = .fin s m e) : m < 2 ^ 53 := by
  unfold round at h
  by_cases hp : p = 0
  · simp only [hp, if_true] at h
    cases h
    norm_num
  · simp only [hp, if_false] at h
    have hlt := floorLog2_lt p q (Nat.pos_of_ne_zero hp) hq
    generalize hk : floorLog2 p q = k at h hlt
    generalize he : max (k - 52) (-1074) = e0 at h
    have hek : k - 52 ≤ e0 := by rw [← he]; exact le_max_left _ _
    have hm0 : p * 2 ^ (-e0).toNat / (q * 2 ^ e0.toNat) < 2 ^ 53 := by
      rw [Nat.div_lt_iff_lt_mul (by positivity)]
      have h1 : (p : ℚ) < (q : ℚ) * (2 : ℚ) ^ (e0 + 53) := by
        refine lt_of_lt_of_le hlt (mul_le_mul_of_nonneg_left ?_ (by positivity))
        exact zpow_le_zpow_right₀ (by norm_num) (by omega)
      rw [zpow_add₀ (by norm_num : (2 : ℚ) ≠ 0), two_zpow_split e0] at h1
      have hden : (0 : ℚ) < (2 : ℚ) ^ (-e0).toNat := by positivity
      have h2 : (p : ℚ) * (2 : ℚ) ^ (-e0).toNat < (2 : ℚ) ^ 53 * ((q : ℚ) * (2 : ℚ) ^ e0.toNat) := by
        have h3 : (q : ℚ) * ((2 : ℚ) ^ e0.toNat / (2 : ℚ) ^ (-e0).toNat * (2 : ℚ) ^ (53 : ℤ)) =
            (2 : ℚ) ^ 53 * ((q : ℚ) * (2 : ℚ) ^ e0.toNat) / (2 : ℚ) ^ (-e0).toNat := by
          rw [show ((2 : ℚ) ^ (53 : ℤ)) = (2 : ℚ) ^ 53 by norm_cast]
          ring
        rw [h3, lt_div_iff₀ hden] at h1
        exact h1
      exact_mod_cast h2
    generalize hm' : (if q * 2 ^ e0.toNat < 2 * (p * 2 ^ (-e0).toNat % (q * 2 ^ e0.toNat)) ∨
        2 * (p * 2 ^ (-e0).toNat % (q * 2 ^ e0.toNat)) = q * 2 ^ e0.toNat ∧
          p * 2 ^ (-e0).toNat / (q * 2 ^ e0.toNat) % 2 = 1
      then p * 2 ^ (-e0).toNat / (q * 2 ^ e0.toNat) + 1
      else p * 2 ^ (-e0).toNat / (q * 2 ^ e0.toNat)) = m' at h
    have hm'le : m' ≤ 2 ^ 53 := by
      rw [← hm']
      split <;> omega
    by_cases hm53 : m' = 2 ^ 53
    · simp only [hm53, if_true] at h
      split at h
      · cases h
      · simp only [Float64.fin.injEq] at h
        rw [← h.2.1]
        norm_num
    · simp only [hm53, if_false] at h
      split at h
      · cases h
      · simp only [Float64.fin.injEq] at h
        rw [← h.2.1]
        omega

theorem floorLog2_one (a : Nat) (ha : 0 < a) : floorLog2 a 1 = (bits a : ℤ) - 1 := by
  obtain ⟨h1, hlo, _⟩ := bits_spec a ha
  have hb1 : bits 1 = 1 := rfl
  have hd : (bits a : ℤ) - (bits 1 : ℤ) = ((bits a - 1 : Nat) : ℤ) := by
    rw [hb1]
    omega
  unfold floorLog2
  simp only [hd, Int.toNat_ofNat]
  have hneg : (-((bits a - 1 : Nat) : ℤ)).toNat = 0 := Int.toNat_eq_zero.mpr (by omega)
  rw [hneg, pow_zero, mul_one, one_mul, if_pos hlo]
  omega

theorem round_of_dvd (neg : Bool) (p q : Nat) (e0 : ℤ) (hp : p ≠ 0)
    (he : max (floorLog2 p q - 52) (-1074) = e0)
    (hd : q * 2 ^ e0.toNat ∣ p * 2 ^ (-e0).toNat)
    (hlt : p * 2 ^ (-e0).toNat / (q * 2 ^ e0.toNat) < 2 ^ 53)
    (h971 : e0 ≤ 971) :
    round neg p q = .fin neg (p * 2 ^ (-e0).toNat / (q * 2 ^ e0.toNat)) e0 := by
  have hr : p * 2 ^ (-e0).toNat % (q * 2 ^ e0.toNat) = 0 := Nat.mod_eq_zero_of_dvd hd
  have hqpos : q * 2 ^ e0.toNat ≠ 0 := by
    intro h0
    rw [h0, Nat.div_zero] at hlt
    rw [h0] at hd
    have := Nat.eq_zero_of_zero_dvd hd
    have h2 : 2 ^ (-e0).toNat ≠ 0 := by positivity
    rcases Nat.mul_eq_zero.mp this with h | h
    · exact hp h
    · exact h2 h
  have hne : p * 2 ^ (-e0).toNat / (q * 2 ^ e0.toNat) ≠ 2 ^ 53 := by omega
  unfold round
  simp only [hp, if_false, he, hr, mul_zero]
  have hc : ¬(q * 2 ^ e0.toNat < 0 ∨
      0 = q * 2 ^ e0.toNat ∧ p * 2 ^ (-e0).toNat / (q * 2 ^ e0.toNat) % 2 = 1) := by
    rintro (h | ⟨h, _⟩)
    · omega
    · exact hqpos h.symm
  simp only [hc, if_false, hne]
  have h3 : ¬(971 < e0) := by omega
  simp only [h3, if_false]

theorem round_exp_ge (neg s : Bool) (p q m : Nat) (e : ℤ) (hp : p ≠ 0)
    (h : round neg p q = .fin s m e) : max (floorLog2 p q - 52) (-1074) ≤ e := by
  unfold round at h
  simp only [hp, if_false] at h
  generalize max (floorLog2 p q - 52) (-1074) = e0 at h
  generalize (if q * 2 ^ e0.toNat < 2 * (p * 2 ^ (-e0).toNat % (q * 2 ^ e0.toNat)) ∨
      2 * (p * 2 ^ (-e0).toNat % (q * 2 ^ e0.toNat)) = q * 2 ^ e0.toNat ∧
        p * 2 ^ (-e0).toNat / (q * 2 ^ e0.toNat) % 2 = 1
    then p * 2 ^ (-e0).toNat / (q * 2 ^ e0.toNat) + 1
    else p * 2 ^ (-e0).toNat / (q * 2 ^ e0.toNat)) = m' at h
  by_cases hm53 : m' = 2 ^ 53
  · simp only [hm53, if_true] at h
    split at h
    · cases h
    · simp only [Float64.fin.injEq] at h
      omega
  · simp only [hm53, if_false] at h
    split at h
    · cases h
    · simp only [Float64.fin.injEq] at h
      omega

theorem round_exp_cases (neg s : Bool) (p q m : Nat) (e : ℤ) (hp : p ≠ 0)
    (h : round neg p q = .fin s m e) :
    e = max (floorLog2 p q - 52) (-1074) ∨
      (e = max (floorLog2 p q - 52) (-1074) + 1 ∧ m = 2 ^ 52) := by
  unfold round at h
  simp only [hp, if_false] at h
  generalize max (floorLog2 p q - 52) (-1074) = e0 at h ⊢
  generalize (if q * 2 ^ e0.toNat < 2 * (p * 2 ^ (-e0).toNat % (q * 2 ^ e0.toNat)) ∨
      2 * (p * 2 ^ (-e0).toNat % (q * 2 ^ e0.toNat)) = q * 2 ^ e0.toNat ∧
        p * 2 ^ (-e0).toNat / (q * 2 ^ e0.toNat) % 2 = 1
    then p * 2 ^ (-e0).toNat / (q * 2 ^ e0.toNat) + 1
    else p * 2 ^ (-e0).toNat / (q * 2 ^ e0.toNat)) = m' at h
  by_cases hm53 : m' = 2 ^ 53
  · simp only [hm53, if_true] at h
    split at h
    · cases h
    · simp only [Float64.fin.injEq] at h
      exact Or.inr ⟨h.2.2.symm, h.2.1.symm⟩
  · simp only [hm53, if_false] at h
    split at h
    · cases h
    · simp only [Float64.fin.injEq] at h
      exact Or.inl h.2.2.symm

theorem toRat_of_dvd (neg : Bool) (n d : Nat) (e0 : ℤ) (p q : Nat) (hq : 0 < q)
    (hn : n = p * 2 ^ (-e0).toNat) (hd : d = q * 2 ^ e0.toNat) (hdvd : d ∣ n) :
    toRat (.fin neg (n / d) e0) = (if neg then -1 else 1) * ((p : ℚ) / (q : ℚ)) := by
  have hdpos : (d : ℚ) ≠ 0 := by
    rw [hd]
    have : (0 : ℚ) < (q : ℚ) := by exact_mod_cast hq
    push_cast
    positivity
  have hcast : ((n / d : Nat) : ℚ) = (n : ℚ) / (d : ℚ) := Nat.cast_div hdvd hdpos
  have hqne : (q : ℚ) ≠ 0 := by
    have : (0 : ℚ) < (q : ℚ) := by exact_mod_cast hq
    exact ne_of_gt this
  have hpow1 : ((2 : ℚ) ^ (-e0).toNat) ≠ 0 := by positivity
  have hpow2 : ((2 : ℚ) ^ e0.toNat) ≠ 0 := by positivity
  simp only [toRat]
  rw [hcast, hn, hd, two_zpow_split e0]
  push_cast
  field_simp
  ring_nf

theorem round_int_exact (neg : Bool) (a m' k : Nat) (ha : 0 < a) (hrep : a = m' * 2 ^ k)
    (hm' : m' < 2 ^ 53) (hbits : bits a ≤ 1024) :
    ∃ m e, round neg a 1 = .fin neg m e ∧
      toRat (.fin neg m e) = (if neg then -1 else 1) * (a : ℚ) := by
  obtain ⟨h1, hlo, hhi⟩ := bits_spec a ha
  have he : max (floorLog2 a 1 - 52) (-1074) = (bits a : ℤ) - 53 := by
    rw [floorLog2_one a ha, max_eq_left (by omega)]
    ring
  have hdvd : 1 * 2 ^ ((bits a : ℤ) - 53).toNat ∣ a * 2 ^ (-((bits a : ℤ) - 53)).toNat := by
    by_cases hb : bits a ≤ 53
    · have h0 : ((bits a : ℤ) - 53).toNat = 0 := by omega
      rw [h0]
      simp
    · have h0 : ((bits a : ℤ) - 53).toNat = bits a - 53 := by omega
      have h2 : (-((bits a : ℤ) - 53)).toNat = 0 := by omega
      rw [h0, h2, pow_zero, mul_one, one_mul]
      have hlo' : 2 ^ (bits a - 1) ≤ m' * 2 ^ k := le_of_le_of_eq hlo hrep
      have hk : bits a - 53 ≤ k := by
        by_contra hcon
        have hk1 : k + 53 ≤ bits a - 1 := by omega
        have hp1 : 2 ^ (k + 53) ≤ 2 ^ (bits a - 1) := Nat.pow_le_pow_right (by norm_num) hk1
        have hp2 : m' * 2 ^ k < 2 ^ 53 * 2 ^ k :=
          Nat.mul_lt_mul_of_pos_right hm' (by positivity)
        rw [pow_add, mul_comm] at hp1
        omega
      have hka : 2 ^ k ∣ a := ⟨m', by rw [hrep, mul_comm]⟩
      exact Dvd.dvd.trans (pow_dvd_pow 2 hk) hka
  have hlt : a * 2 ^ (-((bits a : ℤ) - 53)).toNat / (1 * 2 ^ ((bits a : ℤ) - 53).toNat) <
      2 ^ 53 := by
    rw [Nat.div_lt_iff_lt_mul (by positivity)]
    by_cases hb : bits a ≤ 53
    · have h0 : ((bits a : ℤ) - 53).toNat = 0 := by omega
      have h2 : (-((bits a : ℤ) - 53)).toNat = 53 - bits a := by omega
      rw [h0, h2, pow_zero, mul_one, mul_one]
      calc a * 2 ^ (53 - bits a) < 2 ^ bits a * 2 ^ (53 - bits a) :=
            Nat.mul_lt_mul_of_pos_right hhi (by positivity)
        _ = 2 ^ 53 := by rw [← pow_add]; congr 1; omega
    · have h0 : ((bits a : ℤ) - 53).toNat = bits a - 53 := by omega
      have h2 : (-((bits a : ℤ) - 53)).toNat = 0 := by omega
      rw [h0, h2, pow_zero, mul_one, one_mul, ← pow_add]
      have : 53 + (bits a - 53) = bits a := by omega
      rw [this]
      exact hhi
  refine ⟨_, _, round_of_dvd neg a 1 _ (by omega) he hdvd hlt (by omega), ?_⟩
  rw [toRat_of_dvd neg _ _ _ a 1 (by norm_num) rfl rfl hdvd]
  simp

theorem round_int_integral (neg s : Bool) (a m : Nat) (e : ℤ)
    (h : round neg a 1 = .fin s m e) : ∃ z : ℤ, toRat (.fin s m e) = (z : ℚ) := by
  by_cases ha : a = 0
  · subst ha
    simp only [round, if_true] at h
    cases h
    exact ⟨0, by simp [toRat]⟩
  · have hpos : 0 < a := Nat.pos_of_ne_zero ha
    obtain ⟨h1, hlo, hhi⟩ := bits_spec a hpos
    have he : max (floorLog2 a 1 - 52) (-1074) = (bits a : ℤ) - 53 := by
      rw [floorLog2_one a hpos, max_eq_left (by omega)]
      ring
    by_cases hb : 53 ≤ bits a
    · have hge := round_exp_ge neg s a 1 m e ha h
      rw [he] at hge
      have he0 : 0 ≤ e := by omega
      refine ⟨(if s then -1 else 1) * (m : ℤ) * 2 ^ e.toNat, ?_⟩
      simp only [toRat]
      have : (2 : ℚ) ^ e = (2 : ℚ) ^ e.toNat := by
        rw [← zpow_natCast, Int.toNat_of_nonneg he0]
      rw [this]
      push_cast
      cases s <;> simp
    · have h0 : ((bits a : ℤ) - 53).toNat = 0 := by omega
      have h2 : (-((bits a : ℤ) - 53)).toNat = 53 - bits a := by omega
      have hdvd : 1 * 2 ^ ((bits a : ℤ) - 53).toNat ∣ a * 2 ^ (-((bits a : ℤ) - 53)).toNat := by
        rw [h0]
        simp
      have hlt : a * 2 ^ (-((bits a : ℤ) - 53)).toNat / (1 * 2 ^ ((bits a : ℤ) - 53).toNat) <
          2 ^ 53 := by
        rw [Nat.div_lt_iff_lt_mul (by positivity), h0, h2, pow_zero, mul_one, mul_one]
        calc a * 2 ^ (53 - bits a) < 2 ^ bits a * 2 ^ (53 - bits a) :=
              Nat.mul_lt_mul_of_pos_right hhi (by positivity)
          _ = 2 ^ 53 := by rw [← pow_add]; congr 1; omega
      have hr := round_of_dvd neg a 1 _ ha he hdvd hlt (by omega)
      rw [hr] at h
      cases h
      refine ⟨(if neg then -1 else 1) * (a : ℤ), ?_⟩
      rw [toRat_of_dvd neg _ _ _ a 1 (by norm_num) rfl rfl hdvd]
      push_cast
      cases neg <;> simp

theorem scaled_cast (neg : Bool) (m : Nat) (ex e0 : ℤ) (h : e0 ≤ ex) :
    ((scaled neg m ex e0 : ℤ) : ℚ) = toRat (.fin neg m ex) * (2 : ℚ) ^ (-e0) := by
  have hpow : ((2 : ℚ) ^ (ex - e0).toNat) = (2 : ℚ) ^ ex * (2 : ℚ) ^ (-e0) := by
    rw [← zpow_natCast, Int.toNat_of_nonneg (by omega), ← zpow_add₀ (by norm_num : (2 : ℚ) ≠ 0)]
    congr 1
  simp only [scaled, toRat]
  push_cast
  rw [hpow]
  cases neg <;> simp <;> ring

theorem eq_iff_toRat (na nb : Bool) (ma mb : Nat) (ea eb : ℤ) :
    eq (.fin na ma ea) (.fin nb mb eb) = true ↔
      toRat (.fin na ma ea) = toRat (.fin nb mb eb) := by
  have hpos : (2 : ℚ) ^ (-(min ea eb)) ≠ 0 := by positivity
  simp only [eq, decide_eq_true_eq]
  constructor
  · intro h
    have hq : ((scaled na ma ea (min ea eb) : ℤ) : ℚ) = ((scaled nb mb eb (min ea eb) : ℤ) : ℚ) := by
      rw [h]
    rw [scaled_cast _ _ _ _ (min_le_left _ _), scaled_cast _ _ _ _ (min_le_right _ _)] at hq
    exact mul_right_cancel₀ hpos hq
  · intro h
    have hq : ((scaled na ma ea (min ea eb) : ℤ) : ℚ) = ((scaled nb mb eb (min ea eb) : ℤ) : ℚ) := by
      rw [scaled_cast _ _ _ _ (min_le_left _ _), scaled_cast _ _ _ _ (min_le_right _ _), h]
    exact_mod_cast hq

theorem trunc_of_toRat (neg : Bool) (m : Nat) (e z : ℤ)
    (h : toRat (.fin neg m e) = (z : ℚ)) : trunc (.fin neg m e) = some z := by
  have hQ : (0 : ℚ) < (2 : ℚ) ^ (-e).toNat := by positivity
  simp only [toRat] at h
  rw [two_zpow_split e] at h
  have hw : ((m * 2 ^ e.toNat : Nat) : ℤ) = (if neg then -z else z) * ((2 ^ (-e).toNat : Nat) : ℤ) := by
    have hq : (((m * 2 ^ e.toNat : Nat) : ℤ) : ℚ) =
        (((if neg then -z else z) * ((2 ^ (-e).toNat : Nat) : ℤ) : ℤ) : ℚ) := by
      push_cast
      cases neg
      · simp only [Bool.false_eq_true, if_false, one_mul] at h ⊢
        rw [← h]
        field_simp
      · simp only [if_true] at h ⊢
        rw [← h]
        field_simp
    exact_mod_cast hq
  have hdiv : ((m * 2 ^ e.toNat / 2 ^ (-e).toNat : Nat) : ℤ) = if neg then -z else z := by
    rw [Int.natCast_div, hw]
    exact Int.mul_ediv_cancel _ (by positivity)
  simp only [trunc, Option.some.injEq]
  rw [hdiv]
  cases neg <;> simp

theorem round_int_le (neg s : Bool) (a m : Nat) (e : ℤ) (ha : a ≤ 2 ^ 63)
    (h : round neg a 1 = .fin s m e) : (m : ℚ) * (2 : ℚ) ^ e ≤ (2 : ℚ) ^ (63 : ℤ) := by
  by_cases ha0 : a = 0
  · subst ha0
    simp only [round, if_true] at h
    cases h
    simp only [Nat.cast_zero, zero_mul]
    positivity
  · have hpos : 0 < a := Nat.pos_of_ne_zero ha0
    obtain ⟨h1, hlo, hhi⟩ := bits_spec a hpos
    by_cases ha63 : a = 2 ^ 63
    · have hb : bits a ≤ 1024 := by
        have hpow : 2 ^ (bits a - 1) ≤ 2 ^ 63 := le_trans hlo ha
        have := (Nat.pow_le_pow_iff_right (by norm_num : 1 < 2)).mp hpow
        omega
      obtain ⟨m2, e2, hr, hrat⟩ := round_int_exact neg a 1 63 hpos (by rw [ha63]; ring)
        (by norm_num) hb
      rw [hr] at h
      cases h
      have hval : (m : ℚ) * (2 : ℚ) ^ e = (a : ℚ) := by
        simp only [toRat] at hrat
        cases neg
        · simpa using hrat
        · have := hrat
          simp only [if_true] at this
          linarith
      rw [hval, ha63]
      norm_num
    · have hlt : a < 2 ^ 63 := lt_of_le_of_ne ha ha63
      have hb : bits a ≤ 63 := by
        have hpow : 2 ^ (bits a - 1) < 2 ^ 63 := lt_of_le_of_lt hlo hlt
        have := (Nat.pow_lt_pow_iff_right (by norm_num : 1 < 2)).mp hpow
        omega
      have he : max (floorLog2 a 1 - 52) (-1074) = (bits a : ℤ) - 53 := by
        rw [floorLog2_one a hpos, max_eq_left (by omega)]
        ring
      have hm := round_mant_lt neg s a 1 m e (by norm_num) h
      have hmq : (m : ℚ) ≤ (2 : ℚ) ^ (53 : ℤ) := by
        have : (m : ℚ) < ((2 ^ 53 : Nat) : ℚ) := by exact_mod_cast hm
        have h53 : ((2 ^ 53 : Nat) : ℚ) = (2 : ℚ) ^ (53 : ℤ) := by norm_num
        rw [h53] at this
        exact le_of_lt this
      have h2pos : ∀ z : ℤ, (0 : ℚ) < (2 : ℚ) ^ z := fun z => zpow_pos (by norm_num) z
      have hbound : (m : ℚ) * (2 : ℚ) ^ e ≤ (2 : ℚ) ^ ((bits a : ℤ)) := by
        rcases round_exp_cases neg s a 1 m e ha0 h with hcase | ⟨hcase, hm52⟩
        · rw [hcase, he]
          calc (m : ℚ) * (2 : ℚ) ^ ((bits a : ℤ) - 53)
              ≤ (2 : ℚ) ^ (53 : ℤ) * (2 : ℚ) ^ ((bits a : ℤ) - 53) :=
                mul_le_mul_of_nonneg_right hmq (le_of_lt (h2pos _))
            _ = (2 : ℚ) ^ ((bits a : ℤ)) := by
                rw [← zpow_add₀ (by norm_num : (2 : ℚ) ≠ 0)]
                congr 1
                ring
        · rw [hcase, he, hm52]
          have h52 : ((2 ^ 52 : Nat) : ℚ) = (2 : ℚ) ^ (52 : ℤ) := by norm_num
          rw [h52, ← zpow_add₀ (by norm_num : (2 : ℚ) ≠ 0)]
          apply le_of_eq
          congr 1
          ring
      refine le_trans hbound ?_
      exact zpow_le_zpow_right₀ (by norm_num) (by omega)

end Float64
theorem parseFloat_fin (n : JNumber) (f : Float64) (h : parseFloat n = some f) :
    ∃ neg m e, f = .fin neg m e ∧ m < 2 ^ 53 := by
  unfold parseFloat at h
  split at h
  · rename_i neg m e hr
    cases h
    exact ⟨neg, m, e, rfl, Float64.round_mant_lt _ _ _ _ _ _ (by positivity) hr⟩
  · cases h

theorem decodeID_num (impl : Float64 → Int) (n : JNumber) (f : Float64)
    (h : parseFloat n = some f) :
    decodeID impl (some (.text (.num n))) =
      if f.eq (Float64.ofInt (toInt64 impl f)) then .int64 (toInt64 impl f) else .float64 f := by
  simp only [decodeID, unmarshalAny, decodeAny, h, Option.map_some']

theorem ofInt_exact (i : ℤ) (neg : Bool) (m : Nat) (e : ℤ) (hm : m < 2 ^ 53)
    (hval : Float64.toRat (.fin neg m e) = (i : ℚ)) (hlo : -2 ^ 63 ≤ i) (hhi : i < 2 ^ 63) :
    Float64.eq (.fin neg m e) (Float64.ofInt i) = true := by
  have htr := Float64.trunc_of_toRat neg m e i hval
  by_cases hi : i = 0
  · subst hi
    have h0 : Float64.ofInt 0 = .fin false 0 0 := rfl
    rw [h0, Float64.eq_iff_toRat, hval]
    simp [Float64.toRat]
  · have habs : i.natAbs = m * 2 ^ e.toNat / 2 ^ (-e).toNat := by
      simp only [Float64.trunc, Option.some.injEq] at htr
      rw [← htr]
      cases neg
      · simp only [Bool.false_eq_true, if_false, Int.natAbs_ofNat]
      · simp only [if_true, Int.natAbs_neg, Int.natAbs_ofNat]
    have hapos : 0 < i.natAbs := Int.natAbs_pos.mpr hi
    have hrep : ∃ m' k, i.natAbs = m' * 2 ^ k ∧ m' < 2 ^ 53 := by
      rcases le_total 0 e with he | he
      · have h0 : (-e).toNat = 0 := by omega
        rw [h0, pow_zero, Nat.div_one] at habs
        exact ⟨m, e.toNat, habs, hm⟩
      · have h0 : e.toNat = 0 := by omega
        rw [h0, pow_zero, mul_one] at habs
        refine ⟨i.natAbs, 0, by simp, ?_⟩
        rw [habs]
        exact lt_of_le_of_lt (Nat.div_le_self _ _) hm
    obtain ⟨m', k, hmk, hm'⟩ := hrep
    obtain ⟨_, hblo, _⟩ := Float64.bits_spec i.natAbs hapos
    have hbits : Float64.bits i.natAbs ≤ 1024 := by
      have hle : i.natAbs ≤ 2 ^ 63 := by omega
      have hpow : 2 ^ (Float64.bits i.natAbs - 1) ≤ 2 ^ 63 := le_trans hblo hle
      have := (Nat.pow_le_pow_iff_right (by norm_num : 1 < 2)).mp hpow
      omega
    obtain ⟨m2, e2, hround, hrat⟩ :=
      Float64.round_int_exact (decide (i < 0)) i.natAbs m' k hapos hmk hm' hbits
    unfold Float64.ofInt
    rw [hround, Float64.eq_iff_toRat, hval, hrat]
    by_cases hneg : i < 0
    · simp only [hneg, decide_True, if_true]
      have : ((i.natAbs : ℤ) : ℚ) = -(i : ℚ) := by
        rw [← Int.cast_neg]
        congr 1
        omega
      rw [← Int.cast_natCast, this]
      ring
    · simp only [hneg, decide_False, Bool.false_eq_true, if_false, one_mul]
      have : ((i.natAbs : ℤ) : ℚ) = (i : ℚ) := by
        congr 1
        omega
      rw [← Int.cast_natCast, this]

theorem ofInt_ne_of_fraction (f : Float64) (w : ℤ) (hfrac : ∀ z : ℤ, f.toRat ≠ (z : ℚ)) :
    f.eq (Float64.ofInt w) = false := by
  cases f with
  | fin neg m e =>
    cases hof : Float64.ofInt w with
    | fin s m2 e2 =>
      by_contra hne
      have heq : Float64.eq (.fin neg m e) (.fin s m2 e2) = true := by
        simpa using hne
      rw [Float64.eq_iff_toRat] at heq
      obtain ⟨z, hz⟩ := Float64.round_int_integral _ s w.natAbs m2 e2 hof
      exact hfrac z (heq.trans hz)
    | inf s => rfl
    | nan => rfl
  | inf s => exact absurd (by simp [Float64.toRat]) (hfrac 0)
  | nan => exact absurd (by simp [Float64.toRat]) (hfrac 0)

theorem toInt64_range (impl : Float64 → Int) (x : Float64) :
    -2 ^ 63 ≤ toInt64 impl x ∧ toInt64 impl x < 2 ^ 63 := by
  have hw : ∀ i : ℤ, -2 ^ 63 ≤ wrapInt64 i ∧ wrapInt64 i < 2 ^ 63 := by
    intro i
    unfold wrapInt64
    have h1 := Int.emod_nonneg (i + 2 ^ 63) (by norm_num : (2 : ℤ) ^ 64 ≠ 0)
    have h2 := Int.emod_lt_of_pos (i + 2 ^ 63) (by norm_num : (0 : ℤ) < 2 ^ 64)
    constructor <;> omega
  unfold toInt64
  split
  · split
    · assumption
    · exact hw _
  · exact hw _

theorem abs_toRat_fin (s : Bool) (m : Nat) (e : ℤ) :
    |Float64.toRat (.fin s m e)| = (m : ℚ) * (2 : ℚ) ^ e := by
  have hnn : (0 : ℚ) ≤ (m : ℚ) * (2 : ℚ) ^ e := by positivity
  cases s
  · simp only [Float64.toRat, Bool.false_eq_true, if_false, one_mul]
    exact abs_of_nonneg hnn
  · simp only [Float64.toRat, if_true, neg_mul, one_mul, abs_neg]
    exact abs_of_nonneg hnn

theorem ofInt_ne_of_large (f : Float64) (w : ℤ) (hlo : -2 ^ 63 ≤ w) (hhi : w < 2 ^ 63)
    (hbig : (2 : ℚ) ^ 63 < |f.toRat|) : f.eq (Float64.ofInt w) = false := by
  cases f with
  | fin neg m e =>
    cases hof : Float64.ofInt w with
    | fin s m2 e2 =>
      by_contra hne
      have heq : Float64.eq (.fin neg m e) (.fin s m2 e2) = true := by
        simpa using hne
      rw [Float64.eq_iff_toRat] at heq
      have hle := Float64.round_int_le _ s w.natAbs m2 e2 (by omega) hof
      rw [heq, abs_toRat_fin] at hbig
      have h63 : (2 : ℚ) ^ (63 : ℤ) = (2 : ℚ) ^ 63 := by norm_num
      rw [h63] at hle
      exact absurd hbig (not_lt.mpr hle)
    | inf s => rfl
    | nan => rfl
  | inf s =>
    simp only [Float64.toRat, abs_zero] at hbig
    exact absurd hbig (by norm_num)
  | nan =>
    simp only [Float64.toRat, abs_zero] at hbig
    exact absurd hbig (by norm_num)

/-- C14, as stated, fails: the id `1e19` has the integral value `10^19`, and `decodeID`
gives it back as a `float64`, not as an integer, whether `int64` of an out-of-range value
gives `-2^63` or saturates. -/
theorem decodeID_large_counterexample :
    Float64.toRat (.fin false 4882812500000000 11) = ((10 ^ 19 : ℤ) : ℚ) ∧
    decodeID (fun _ => -2 ^ 63) (some (.text (.num ⟨false, 1, 19⟩))) =
      .float64 (.fin false 4882812500000000 11) ∧
    decodeID (fun _ => 2 ^ 63 - 1) (some (.text (.num ⟨false, 1, 19⟩))) =
      .float64 (.fin false 4882812500000000 11) :=
  ⟨by norm_num [Float64.toRat], rfl, rfl⟩

/-- C14, amended: `decodeID` maps a present id by cases: `null` gives `nil`; a string gives
the same string; a number whose `float64` value is an integer of the `int64` range gives
that integer (`1` and `1.0` both give `1`); a number whose `float64` value is no integer
gives that `float64`; an array or an object that decodes gives the decoded value
unchanged; a number whose `float64` value is above `2^63` in magnitude gives that
`float64`, integer or not; and the value `2^63` itself gives a `float64` when `int64` of it
is `-2^63` and the integer `2^63 - 1` when `int64` of it saturates. -/
theorem decodeID_cases (impl : Float64 → Int) :
    decodeID impl (some (.text .null)) = .nil ∧
    (∀ s, decodeID impl (some (.text (.str s))) = .string s) ∧
    (∀ (n : JNumber) (f : Float64) (i : ℤ), parseFloat n = some f → f.toRat = (i : ℚ) →
      -2 ^ 63 ≤ i → i < 2 ^ 63 → decodeID impl (some (.text (.num n))) = .int64 i) ∧
    (∀ (n : JNumber) (f : Float64), parseFloat n = some f → (∀ z : ℤ, f.toRat ≠ (z : ℚ)) →
      decodeID impl (some (.text (.num n))) = .float64 f) ∧
    (∀ items vs, decodeAnyList items = some vs →
      decodeID impl (some (.text (.arr items))) = .slice vs) ∧
    (∀ members v, decodeAny (.obj members) = some v →
      decodeID impl (some (.text (.obj members))) = v ∧ ∃ kvs, v = .map kvs) ∧
    decodeID impl (some (.text (.num ⟨false, 1, 0⟩))) = .int64 1 ∧
    decodeID impl (some (.text (.num ⟨false, 10, -1⟩))) = .int64 1 ∧
    (∀ (n : JNumber) (f : Float64), parseFloat n = some f → (2 : ℚ) ^ 63 < |f.toRat| →
      decodeID impl (some (.text (.num n))) = .float64 f) ∧
    decodeID (fun _ => -2 ^ 63) (some (.text (.num ⟨false, 9223372036854775808, 0⟩))) =
      .float64 (.fin false 4503599627370496 11) ∧
    decodeID (fun _ => 2 ^ 63 - 1) (some (.text (.num ⟨false, 9223372036854775808, 0⟩))) =
      .int64 9223372036854775807 := by
  have hint : ∀ (n : JNumber) (f : Float64) (i : ℤ), parseFloat n = some f →
      f.toRat = (i : ℚ) → -2 ^ 63 ≤ i → i < 2 ^ 63 →
      decodeID impl (some (.text (.num n))) = .int64 i := by
    intro n f i hp hval hlo hhi
    obtain ⟨neg, m, e, rfl, hm⟩ := parseFloat_fin n _ hp
    have htr := Float64.trunc_of_toRat neg m e i hval
    have hto : toInt64 impl (.fin neg m e) = i := by
      simp only [toInt64, htr]
      rw [if_pos ⟨hlo, hhi⟩]
    rw [decodeID_num impl n _ hp, hto, ofInt_exact i neg m e hm hval hlo hhi]
    rfl
  refine ⟨rfl, fun _ => rfl, hint, fun n f hp hfrac => ?_, fun items vs h => ?_,
    fun members v h => ?_, ?_, ?_, fun n f hp hbig => ?_, by rfl, by rfl⟩
  · rw [decodeID_num impl n f hp, ofInt_ne_of_fraction f _ hfrac]
    rfl
  · simp only [decodeID, unmarshalAny, decodeAny, h, Option.map_some']
  · simp only [decodeAny] at h
    cases hm : decodeAnyMembers members with
    | none => simp [hm] at h
    | some kvs =>
      simp only [hm, Option.map_some', Option.some.injEq] at h
      subst h
      refine ⟨?_, _, rfl⟩
      simp only [decodeID, unmarshalAny, decodeAny, hm, Option.map_some']
  · exact hint ⟨false, 1, 0⟩ (.fin false 4503599627370496 (-52)) 1 (by rfl)
      (by norm_num [Float64.toRat]) (by norm_num) (by norm_num)
  · exact hint ⟨false, 10, -1⟩ (.fin false 4503599627370496 (-52)) 1 (by rfl)
      (by norm_num [Float64.toRat]) (by norm_num) (by norm_num)
  · have hr := toInt64_range impl f
    rw [decodeID_num impl n f hp, ofInt_ne_of_large f _ hr.1 hr.2 hbig]
    rfl

/-- C14, amended, at the ids `42`, `1e19` and `2.5`. -/
theorem decodeID_cases_witness :
    decodeID (fun _ => 0) (some (.text (.num ⟨false, 42, 0⟩))) = .int64 42 ∧
    decodeID (fun _ => 0) (some (.text (.num ⟨false, 1, 19⟩))) =
      .float64 (.fin false 4882812500000000 11) ∧
    decodeID (fun _ => 0) (some (.text (.num ⟨false, 25, -1⟩))) =
      .float64 (.fin false 5629499534213120 (-51)) :=
  ⟨(decodeID_cases (fun _ => 0)).2.2.1 ⟨false, 42, 0⟩ (.fin false 5910974510923776 (-47)) 42
      (by rfl) (by norm_num [Float64.toRat]) (by norm_num) (by norm_num),
    (decodeID_cases (fun _ => 0)).2.2.2.2.2.2.2.2.1 ⟨false, 1, 19⟩
      (.fin false 4882812500000000 11) (by rfl) (by rw [abs_toRat_fin]; norm_num),
    (decodeID_cases (fun _ => 0)).2.2.2.1 ⟨false, 25, -1⟩ (.fin false 5629499534213120 (-51))
      (by rfl) (fun z hz => by
        have h2 : (5 : ℚ) = 2 * (z : ℚ) := by
          have : Float64.toRat (.fin false 5629499534213120 (-51)) = 5 / 2 := by
            norm_num [Float64.toRat]
          rw [this] at hz
          linarith
        have h3 : (5 : ℤ) = 2 * z := by exact_mod_cast h2
        omega)⟩

/-! ## The request envelope -/

theorem storeMembers_append {σ : Type} (step : σ → String → JSON → Option σ) (s : σ)
    (xs ys : List (String × JSON)) :
    storeMembers step s (xs ++ ys) =
      (storeMembers step s xs).bind (fun s1 => storeMembers step s1 ys) := by
  induction xs generalizing s with
  | nil => rfl
  | cons kv rest ih =>
    obtain ⟨k, v⟩ := kv
    simp only [List.cons_append, storeMembers]
    cases step s k v with
    | none => rfl
    | some s1 => exact ih s1

theorem storeRequestField_id_of_not_id (cur req : rpcRequest) (key : String) (v : JSON)
    (hkey : keyIs "id" key = false) (h : storeRequestField cur key v = some req) :
    req.ID = cur.ID := by
  unfold storeRequestField at h
  split at h
  · cases hs : storeString cur.JSONRPC v with
    | none => simp [hs] at h
    | some x =>
      simp only [hs, Option.map_some', Option.some.injEq] at h
      rw [← h]
  · split at h
    · cases hs : storeString cur.Method v with
      | none => simp [hs] at h
      | some x =>
        simp only [hs, Option.map_some', Option.some.injEq] at h
        rw [← h]
    · split at h
      · simp only [Option.some.injEq] at h
        rw [← h]
      · simp only [hkey, Bool.false_eq_true, if_false, Option.some.injEq] at h
        rw [← h]

theorem storeMembers_id_of_not_id (ms : List (String × JSON)) (cur req : rpcRequest)
    (hms : ∀ kv ∈ ms, keyIs "id" kv.1 = false)
    (h : storeMembers storeRequestField cur ms = some req) : req.ID = cur.ID := by
  induction ms generalizing cur with
  | nil =>
    simp only [storeMembers, Option.some.injEq] at h
    rw [← h]
  | cons kv rest ih =>
    obtain ⟨k, v⟩ := kv
    simp only [storeMembers] at h
    cases hstep : storeRequestField cur k v with
    | none => simp [hstep] at h
    | some s1 =>
      simp only [hstep] at h
      rw [ih s1 (fun kv hkv => hms kv (List.mem_cons_of_mem _ hkv)) h]
      exact storeRequestField_id_of_not_id cur s1 k v (hms (k, v) (List.mem_cons_self _ _)) hstep

theorem unmarshalRequest_null_id (ms1 ms2 : List (String × JSON)) (req : rpcRequest)
    (hms2 : ∀ kv ∈ ms2, keyIs "id" kv.1 = false)
    (hdec : unmarshalRequest (.text (.obj (ms1 ++ ("id", .null) :: ms2))) = some req) :
    req.ID = none := by
  simp only [unmarshalRequest, storeRequest, storeMembers_append] at hdec
  cases h1 : storeMembers storeRequestField {} ms1 with
  | none => simp [h1] at hdec
  | some s1 =>
    simp only [h1, Option.some_bind, storeMembers] at hdec
    have hstep : storeRequestField s1 "id" .null = some { s1 with ID := none } := rfl
    simp only [hstep] at hdec
    exact storeMembers_id_of_not_id ms2 _ req hms2 hdec

/-- C15, as stated, fails: the request `math.add` of `{"a":2,"b":3}` with `"id": null`
decodes to a request without id and, its handler succeeding, gets no response. -/
theorem null_id_counterexample :
    unmarshalRequest
        (.text (.obj [("jsonrpc", .str "2.0"), ("method", .str "math.add"),
          ("params", .obj [("a", .num ⟨false, 2, 0⟩), ("b", .num ⟨false, 3, 0⟩)]),
          ("id", .null)])) =
      some { JSONRPC := "2.0", Method := "math.add",
             Params := .text (.obj [("a", .num ⟨false, 2, 0⟩), ("b", .num ⟨false, 3, 0⟩)]),
             ID := none } ∧
    addNumbers (.text (.obj [("a", .num ⟨false, 2, 0⟩), ("b", .num ⟨false, 3, 0⟩)])) =
      (.map [("sum", .float64 (.fin false 5629499534213120 (-50)))], none) ∧
    rpcHandler (fun _ => 0) methodRegistry
        { Method := "POST",
          Body := some (.text (.obj [("jsonrpc", .str "2.0"), ("method", .str "math.add"),
            ("params", .obj [("a", .num ⟨false, 2, 0⟩), ("b", .num ⟨false, 3, 0⟩)]),
            ("id", .null)])) } =
      { status := 204, payload := none } :=
  ⟨rfl, rfl, rfl⟩

/-- C15, amended: a request object whose last `id` member is `null` decodes to an
`rpcRequest` with a `nil` id, as one without `id` member does; with version "2.0" and a
registered handler that succeeds, `rpcHandler` answers it with no content (status 204): it is
suppressed as a notification. A request value whose id pointer holds the text `null`,
which the decoder does not produce, is answered with the id `null`. -/
theorem null_id_suppressed (impl : Float64 → Int) (registry : Registry)
    (ms1 ms2 : List (String × JSON)) (req : rpcRequest) (handler : methodFunc) (r : GoValue)
    (hreg : registry.get "" = none)
    (hms2 : ∀ kv ∈ ms2, keyIs "id" kv.1 = false)
    (hdec : unmarshalRequest (.text (.obj (ms1 ++ ("id", .null) :: ms2))) = some req)
    (hv : req.JSONRPC = "2.0")
    (hm : registry.get req.Method = some handler)
    (hh : handler req.Params = (r, none)) :
    req.ID = none ∧
    rpcHandler impl registry
        { Method := "POST", Body := some (.text (.obj (ms1 ++ ("id", .null) :: ms2))) } =
      { status := 204, payload := none } ∧
    dispatchRequest impl registry { req with ID := some (.text .null) } =
      some { JSONRPC := "2.0", Result := r, Error := none, ID := .nil } := by
  have hid := unmarshalRequest_null_id ms1 ms2 req hms2 hdec
  have hne := Registry.method_ne_empty hreg hm
  refine ⟨hid, ?_, ?_⟩
  · have hd : dispatchRequest impl registry req = none := by
      rw [dispatchRequest_handler impl registry req handler hv hne hm, hh, hid]
      rfl
    simp only [rpcHandler, Body.isBlank, Body.hasBracket, Body.bytes, hdec, hd, noContent]
    rfl
  · rw [dispatchRequest_handler impl registry { req with ID := some (.text .null) } handler
      hv hne hm]
    simp only [hh]
    rfl

/-- C15, amended, at the notification-like request `text.concat` of `{"parts":["a"]}` with
`"id": null` followed by a member `note`. -/
theorem null_id_suppressed_witness :
    rpcHandler (fun _ => 0) methodRegistry
        { Method := "POST",
          Body := some (.text (.obj ([("jsonrpc", .str "2.0"), ("method", .str "text.concat"),
            ("params", .obj [("parts", .arr [.str "a"])])] ++
            ("id", .null) :: [("note", .str "x")]))) } =
      { status := 204, payload := none } :=
  (null_id_suppressed (fun _ => 0) methodRegistry
    [("jsonrpc", .str "2.0"), ("method", .str "text.concat"),
      ("params", .obj [("parts", .arr [.str "a"])])]
    [("note", .str "x")]
    { JSONRPC := "2.0", Method := "text.concat",
      Params := .text (.obj [("parts", .arr [.str "a"])]) }
    concatText (.map [("text", .string "a")]) rfl (by decide) rfl rfl rfl rfl).2.1

/-- C16, as stated, fails: the top-level input `null` is decoded as an empty request and
dispatched; it is answered with the error -32600 and status 200, not with -32700. -/
theorem top_level_null_counterexample :
    rpcHandler (fun _ => 0) methodRegistry { Method := "POST", Body := some (.text .null) } =
      { status := 200,
        payload := some (.response
          { JSONRPC := "2.0", Result := .nil,
            Error := some { Code := -32600, Message := "jsonrpc field must be \"2.0\"",
                            Data := .nil },
            ID := .nil }) } :=
  rfl

/-- C16, amended: a top-level input that is not blank and not a well-formed JSON text, and
one that is a number, a string or a boolean, are answered with exactly one error -32700 with
a null id and status 400 (message "invalid JSON batch" when the text starts with `[`,
"invalid JSON" otherwise) and are not dispatched; the literal `null` is decoded as the empty
request and answered by `dispatchRequest` with the error -32600 and a null id. -/
theorem top_level_not_request (impl : Float64 → Int) (registry : Registry) :
    (∀ bracket : Bool,
      rpcHandler impl registry { Method := "POST", Body := some (.broken bracket) } =
        { status := 400,
          payload := some (.response
            { JSONRPC := "2.0", Result := .nil,
              Error := some { Code := -32700,
                              Message := if bracket then "invalid JSON batch" else "invalid JSON",
                              Data := .nil },
              ID := .nil }) }) ∧
    (∀ j : JSON, (∃ n, j = .num n) ∨ (∃ s, j = .str s) ∨ (∃ b, j = .bool b) →
      rpcHandler impl registry { Method := "POST", Body := some (.text j) } =
        { status := 400,
          payload := some (.response
            { JSONRPC := "2.0", Result := .nil,
              Error := some { Code := -32700, Message := "invalid JSON", Data := .nil },
              ID := .nil }) }) ∧
    rpcHandler impl registry { Method := "POST", Body := some (.text .null) } =
      { status := 200,
        payload := some (.response
          { JSONRPC := "2.0", Result := .nil,
            Error := some { Code := -32600, Message := "jsonrpc field must be \"2.0\"",
                            Data := .nil },
            ID := .nil }) } := by
  refine ⟨fun bracket => ?_, fun j hj => ?_, rfl⟩
  · cases bracket <;> rfl
  · rcases hj with ⟨n, rfl⟩ | ⟨s, rfl⟩ | ⟨b, rfl⟩ <;> rfl

/-- C16, amended, at the top-level input `42`. -/
theorem top_level_not_request_witness :
    rpcHandler (fun _ => 0) methodRegistry
        { Method := "POST", Body := some (.text (.num ⟨false, 42, 0⟩)) } =
      { status := 400,
        payload := some (.response
          { JSONRPC := "2.0", Result := .nil,
            Error := some { Code := -32700, Message := "invalid JSON", Data := .nil },
            ID := .nil }) } :=
  (top_level_not_request (fun _ => 0) methodRegistry).2.1 _ (Or.inl ⟨_, rfl⟩)

/-- C17, as stated, fails: the request object with `"id": null` is re-encoded without `id`
member. -/
theorem roundtrip_null_id_counterexample :
    (unmarshalRequest
        (.text (.obj [("jsonrpc", .str "2.0"), ("method", .str "math.add"),
          ("id", .null)]))).bind marshalRequest =
      some (.obj [("jsonrpc", .str "2.0"), ("method", .str "math.add")]) :=
  rfl

/-- C17, amended: decoding the request object of members `jsonrpc`, `method`, optional
`params` and optional `id` into `rpcRequest` and encoding that value again gives the same
object (same method, same params value, present or absent, same id) when the id is absent
or not `null`, and the object without `id` member when the id is `null`. -/
theorem request_roundtrip (version method : String) (params id : Option JSON) :
    (unmarshalRequest
        (.text (.obj ([("jsonrpc", .str version), ("method", .str method)] ++
          (match params with
           | none => []
           | some p => [("params", p)]) ++
          (match id with
           | none => []
           | some i => [("id", i)]))))).bind marshalRequest =
      some (.obj ([("jsonrpc", .str version), ("method", .str method)] ++
        (match params with
         | none => []
         | some p => [("params", p)]) ++
        (match id with
         | none => []
         | some .null => []
         | some i => [("id", i)]))) := by
  cases params <;> cases id with
  | none => rfl
  | some i => cases i <;> rfl

/-! ## The handlers -/

theorem unmarshalNumbers_pair (na nb : JNumber) (a b : Float64)
    (ha : parseFloat na = some a) (hb : parseFloat nb = some b) :
    unmarshalNumbers (.text (.obj [("a", .num na), ("b", .num nb)])) = some { A := a, B := b } ∧
    unmarshalNumbers (.text (.obj [("b", .num nb), ("a", .num na)])) = some { A := a, B := b } := by
  have ka : keyIs "a" "a" = true := rfl
  have kb : keyIs "b" "b" = true := rfl
  have kab : keyIs "a" "b" = false := rfl
  constructor <;>
    simp [unmarshalNumbers, storeMembers, storeNumbersField, storeFloat64, ka, kb, kab, ha, hb]

/-- C18, as stated, fails: the request `math.add` of `{"a":2,"b":3}` with the id
`9007199254740993` is answered with the id `9007199254740992`, not with its own id; and the
params `{"a":2,"b":3,"B":"x"}`, an object with the numbers `a` and `b`, are answered with
the error -32602, the member `B` being decoded into the field of `b`. -/
theorem add_id_counterexample :
    dispatchRequest (fun _ => 0) methodRegistry
        { JSONRPC := "2.0", Method := "math.add",
          Params := .text (.obj [("a", .num ⟨false, 2, 0⟩), ("b", .num ⟨false, 3, 0⟩)]),
          ID := some (.text (.num ⟨false, 9007199254740993, 0⟩)) } =
      some { JSONRPC := "2.0",
             Result := .map [("sum", .float64 (.fin false 5629499534213120 (-50)))],
             Error := none, ID := .int64 9007199254740992 } ∧
    (9007199254740992 : ℤ) ≠ 9007199254740993 ∧
    dispatchRequest (fun _ => 0) methodRegistry
        { JSONRPC := "2.0", Method := "math.add",
          Params := .text (.obj [("a", .num ⟨false, 2, 0⟩), ("b", .num ⟨false, 3, 0⟩),
            ("B", .str "x")]),
          ID := some (.text (.num ⟨false, 1, 0⟩)) } =
      some { JSONRPC := "2.0", Result := .nil,
             Error := some { Code := -32602,
                             Message := "expected params object with 'a' and 'b'",
                             Data := .nil },
             ID := .int64 1 } :=
  ⟨by rfl, by decide, by rfl⟩

/-- C18, amended: a request with version "2.0", method `math.add`, an explicit id `X` and
params that decode into the numbers `a` and `b` is answered with the result
`{"sum": a + b}`, the `float64` sum, no error and the normalized id `decodeID X`;
dispatched twice, it is answered so both times. The object of exactly the two members `a`
and `b`, in either order, both number literals with a `float64` value, decodes into these
values. -/
theorem add_dispatch (impl : Float64 → Int) :
    (∀ (req : rpcRequest) (X : RawMessage) (a b : Float64),
      req.JSONRPC = "2.0" → req.Method = "math.add" →
      unmarshalNumbers req.Params = some { A := a, B := b } → req.ID = some X →
      [req, req].map (dispatchRequest impl methodRegistry) =
        [some { JSONRPC := "2.0", Result := .map [("sum", .float64 (a.add b))], Error := none,
                ID := decodeID impl (some X) },
         some { JSONRPC := "2.0", Result := .map [("sum", .float64 (a.add b))], Error := none,
                ID := decodeID impl (some X) }]) ∧
    (∀ (na nb : JNumber) (a b : Float64), parseFloat na = some a → parseFloat nb = some b →
      unmarshalNumbers (.text (.obj [("a", .num na), ("b", .num nb)])) =
        some { A := a, B := b } ∧
      unmarshalNumbers (.text (.obj [("b", .num nb), ("a", .num na)])) =
        some { A := a, B := b }) := by
  refine ⟨fun req X a b hv hm hdec hid => ?_, fun na nb a b ha hb =>
    unmarshalNumbers_pair na nb a b ha hb⟩
  have hget : methodRegistry.get req.Method = some addNumbers := by rw [hm]; rfl
  have hne : req.Method ≠ "" := by rw [hm]; decide
  have hadd : addNumbers req.Params = (.map [("sum", .float64 (a.add b))], none) := by
    rw [addNumbers, hdec]
  have hd : dispatchRequest impl methodRegistry req =
      some { JSONRPC := "2.0", Result := .map [("sum", .float64 (a.add b))], Error := none,
             ID := decodeID impl (some X) } := by
    rw [dispatchRequest_handler impl methodRegistry req addNumbers hv hne hget, hadd, hid]
    rfl
  simp only [List.map_cons, List.map_nil, hd]

/-- C18, amended, at the request `math.add` of `{"a":2,"b":3}` with id `1`: the sum is `5`
and the id is `1`, both times. -/
theorem add_dispatch_witness :
    Float64.add (.fin false 4503599627370496 (-51)) (.fin false 6755399441055744 (-51)) =
      .fin false 5629499534213120 (-50) ∧
    decodeID (fun _ => 0) (some (.text (.num ⟨false, 1, 0⟩))) = .int64 1 ∧
    [({ JSONRPC := "2.0", Method := "math.add",
        Params := .text (.obj [("a", .num ⟨false, 2, 0⟩), ("b", .num ⟨false, 3, 0⟩)]),
        ID := some (.text (.num ⟨false, 1, 0⟩)) } : rpcRequest),
      { JSONRPC := "2.0", Method := "math.add",
        Params := .text (.obj [("a", .num ⟨false, 2, 0⟩), ("b", .num ⟨false, 3, 0⟩)]),
        ID := some (.text (.num ⟨false, 1, 0⟩)) }].map
        (dispatchRequest (fun _ => 0) methodRegistry) =
      [some { JSONRPC := "2.0",
              Result := .map [("sum", .float64 (Float64.add (.fin false 4503599627370496 (-51))
                (.fin false 6755399441055744 (-51))))],
              Error := none,
              ID := decodeID (fun _ => 0) (some (.text (.num ⟨false, 1, 0⟩))) },
       some { JSONRPC := "2.0",
              Result := .map [("sum", .float64 (Float64.add (.fin false 4503599627370496 (-51))
                (.fin false 6755399441055744 (-51))))],
              Error := none,
              ID := decodeID (fun _ => 0) (some (.text (.num ⟨false, 1, 0⟩))) }] :=
  ⟨by rfl, by rfl,
    (add_dispatch (fun _ => 0)).1
      { JSONRPC := "2.0", Method := "math.add",
        Params := .text (.obj [("a", .num ⟨false, 2, 0⟩), ("b", .num ⟨false, 3, 0⟩)]),
        ID := some (.text (.num ⟨false, 1, 0⟩)) }
      (.text (.num ⟨false, 1, 0⟩))
      (.fin false 4503599627370496 (-51)) (.fin false 6755399441055744 (-51))
      (by rfl) (by rfl) (by rfl) (by rfl)⟩

theorem storeMembers_numbers_unrelated (ms : List (String × JSON)) (cur : Numbers)
    (hms : ∀ kv ∈ ms, keyIs "a" kv.1 = false ∧ keyIs "b" kv.1 = false) :
    storeMembers storeNumbersField cur ms = some cur := by
  induction ms with
  | nil => rfl
  | cons kv rest ih =>
    obtain ⟨k, v⟩ := kv
    have hk := hms (k, v) (List.mem_cons_self _ _)
    have hstep : storeNumbersField cur k v = some cur := by
      simp [storeNumbersField, hk.1, hk.2]
    simp only [storeMembers, hstep]
    exact ih (fun kv hkv => hms kv (List.mem_cons_of_mem _ hkv))

theorem storeFloat64_none (cur : Float64) (v : JSON)
    (hv : (∃ s, v = .str s) ∨ (∃ b, v = .bool b) ∨ (∃ xs, v = .arr xs) ∨ (∃ ms, v = .obj ms) ∨
      (∃ n, v = .num n ∧ parseFloat n = none)) :
    storeFloat64 cur v = none := by
  rcases hv with ⟨s, rfl⟩ | ⟨b, rfl⟩ | ⟨xs, rfl⟩ | ⟨ms, rfl⟩ | ⟨n, rfl, hn⟩
  · rfl
  · rfl
  · rfl
  · rfl
  · exact hn

theorem unmarshalNumbers_bad_member (pre post : List (String × JSON)) (key : String) (v : JSON)
    (hkey : keyIs "a" key = true ∨ keyIs "b" key = true)
    (hv : (∃ s, v = .str s) ∨ (∃ b, v = .bool b) ∨ (∃ xs, v = .arr xs) ∨ (∃ ms, v = .obj ms) ∨
      (∃ n, v = .num n ∧ parseFloat n = none)) :
    unmarshalNumbers (.text (.obj (pre ++ (key, v) :: post))) = none := by
  have hstep : ∀ cur : Numbers, storeNumbersField cur key v = none := by
    intro cur
    unfold storeNumbersField
    by_cases ha : keyIs "a" key = true
    · simp [ha, storeFloat64_none cur.A v hv]
    · have hb : keyIs "b" key = true := hkey.resolve_left ha
      simp [ha, hb, storeFloat64_none cur.B v hv]
  simp only [unmarshalNumbers, storeMembers_append]
  cases storeMembers storeNumbersField {} pre with
  | none => rfl
  | some s1 => simp [storeMembers, hstep s1]

/-- C19, as stated, fails: `addNumbers` accepts the params `{}`, `{"a":1}` and
`{"a":null,"b":2}` and returns the sums `0`, `1` and `2` and no error; the request
`math.add` of `{}` with id `1` is answered with the result `{"sum":0}`. -/
theorem addNumbers_missing_counterexample :
    addNumbers (.text (.obj [])) = (.map [("sum", .float64 (.fin false 0 0))], none) ∧
    addNumbers (.text (.obj [("a", .num ⟨false, 1, 0⟩)])) =
      (.map [("sum", .float64 (.fin false 4503599627370496 (-52)))], none) ∧
    addNumbers (.text (.obj [("a", .null), ("b", .num ⟨false, 2, 0⟩)])) =
      (.map [("sum", .float64 (.fin false 4503599627370496 (-51)))], none) ∧
    dispatchRequest (fun _ => 0) methodRegistry
        { JSONRPC := "2.0", Method := "math.add", Params := .text (.obj []),
          ID := some (.text (.num ⟨false, 1, 0⟩)) } =
      some { JSONRPC := "2.0", Result := .map [("sum", .float64 (.fin false 0 0))],
             Error := none, ID := .int64 1 } :=
  ⟨rfl, rfl, rfl, rfl⟩

/-- C19, amended: `addNumbers` returns the error -32602 and no result for absent params,
for bytes that are no JSON text, for a string, a number, a boolean or an array, and for an
object in which a member `a` or `b` is a string, a boolean, an array, an object or a number
out of the range of `float64`; it accepts an object without members `a` and `b`, such as
`{}`, and the params `null`, and returns the sum `0` for them. -/
theorem addNumbers_validation :
    (∀ params : RawMessage,
      params = .empty ∨ params = .invalid ∨ (∃ s, params = .text (.str s)) ∨
        (∃ n, params = .text (.num n)) ∨ (∃ b, params = .text (.bool b)) ∨
        (∃ items, params = .text (.arr items)) →
      addNumbers params =
        (.nil, some { Code := -32602, Message := "expected params object with 'a' and 'b'",
                      Data := .nil })) ∧
    (∀ (pre post : List (String × JSON)) (key : String) (v : JSON),
      keyIs "a" key = true ∨ keyIs "b" key = true →
      (∃ s, v = .str s) ∨ (∃ b, v = .bool b) ∨ (∃ xs, v = .arr xs) ∨ (∃ ms, v = .obj ms) ∨
        (∃ n, v = .num n ∧ parseFloat n = none) →
      addNumbers (.text (.obj (pre ++ (key, v) :: post))) =
        (.nil, some { Code := -32602, Message := "expected params object with 'a' and 'b'",
                      Data := .nil })) ∧
    (∀ ms : List (String × JSON),
      (∀ kv ∈ ms, keyIs "a" kv.1 = false ∧ keyIs "b" kv.1 = false) →
      addNumbers (.text (.obj ms)) = (.map [("sum", .float64 (.fin false 0 0))], none)) ∧
    addNumbers (.text .null) = (.map [("sum", .float64 (.fin false 0 0))], none) := by
  refine ⟨fun params h => ?_, fun pre post key v hkey hv => ?_, fun ms hms => ?_, rfl⟩
  · rcases h with h | h | ⟨s, h⟩ | ⟨n, h⟩ | ⟨b, h⟩ | ⟨items, h⟩ <;> subst h <;> rfl
  · rw [addNumbers, unmarshalNumbers_bad_member pre post key v hkey hv]
  · rw [addNumbers]
    simp only [unmarshalNumbers, storeMembers_numbers_unrelated ms {} hms]
    rfl

/-- C19, amended, at the params `{"a":"2","b":3}`, rejected, and `{"x":1}`, accepted. -/
theorem addNumbers_validation_witness :
    addNumbers (.text (.obj ([] ++ ("a", .str "2") :: [("b", .num ⟨false, 3, 0⟩)]))) =
      (.nil, some { Code := -32602, Message := "expected params object with 'a' and 'b'",
                    Data := .nil }) ∧
    addNumbers (.text (.obj [("x", .num ⟨false, 1, 0⟩)])) =
      (.map [("sum", .float64 (.fin false 0 0))], none) :=
  ⟨addNumbers_validation.2.1 [] [("b", .num ⟨false, 3, 0⟩)] "a" (.str "2") (Or.inl rfl)
      (Or.inl ⟨"2", rfl⟩),
    addNumbers_validation.2.2.1 [("x", .num ⟨false, 1, 0⟩)] (fun kv hkv => by
      simp only [List.mem_singleton] at hkv
      subst hkv
      exact ⟨rfl, rfl⟩)⟩

theorem storeConcatField_parts_of_not_parts (cur args : ConcatArgs) (key : String) (v : JSON)
    (hkey : keyIs "parts" key = false) (h : storeConcatField cur key v = some args) :
    args.Parts = cur.Parts := by
  unfold storeConcatField at h
  simp only [hkey, Bool.false_eq_true, if_false] at h
  split at h
  · cases hs : storeString cur.Separator v with
    | none => simp [hs] at h
    | some x =>
      simp only [hs, Option.map_some', Option.some.injEq] at h
      rw [← h]
  · simp only [Option.some.injEq] at h
    rw [← h]

theorem storeMembers_parts_of_not_parts (ms : List (String × JSON)) (cur args : ConcatArgs)
    (hms : ∀ kv ∈ ms, keyIs "parts" kv.1 = false)
    (h : storeMembers storeConcatField cur ms = some args) : args.Parts = cur.Parts := by
  induction ms generalizing cur with
  | nil =>
    simp only [storeMembers, Option.some.injEq] at h
    rw [← h]
  | cons kv rest ih =>
    obtain ⟨k, v⟩ := kv
    simp only [storeMembers] at h
    cases hstep : storeConcatField cur k v with
    | none => simp [hstep] at h
    | some s1 =>
      simp only [hstep] at h
      rw [ih s1 (fun kv hkv => hms kv (List.mem_cons_of_mem _ hkv)) h]
      exact storeConcatField_parts_of_not_parts cur s1 k v
        (hms (k, v) (List.mem_cons_self _ _)) hstep

/-- C20: for params that decode into the argument struct `args` of `text.concat`,
`concatText` returns an error exactly when the decoded parts list is empty, the error
being -32602 "parts must contain at least one string" without result; with a non-empty
parts list it returns a result and no error; and the parts list is empty when the params
object has no `parts` member. -/
theorem concatText_error_iff (params : RawMessage) (args : ConcatArgs)
    (hdec : unmarshalConcatArgs params = some args) :
    ((concatText params).2 ≠ none ↔ args.Parts.elems = []) ∧
    (args.Parts.elems = [] →
      concatText params =
        (.nil, some { Code := -32602, Message := "parts must contain at least one string",
                      Data := .nil })) ∧
    (args.Parts.elems ≠ [] → (concatText params).1 ≠ .nil ∧ (concatText params).2 = none) ∧
    (∀ ms, params = .text (.obj ms) → (∀ kv ∈ ms, keyIs "parts" kv.1 = false) →
      args.Parts.elems = []) := by
  have hempty : args.Parts.elems = [] →
      concatText params =
        (.nil, some { Code := -32602, Message := "parts must contain at least one string",
                      Data := .nil }) := by
    intro h
    simp [concatText, hdec, h]
  have hfull : args.Parts.elems ≠ [] →
      (concatText params).1 ≠ .nil ∧ (concatText params).2 = none := by
    intro h
    have hlen : args.Parts.elems.length ≠ 0 := by
      intro h0
      exact h (List.length_eq_zero.mp h0)
    simp [concatText, hdec, hlen]
  refine ⟨⟨fun herr => ?_, fun h => ?_⟩, hempty, hfull, fun ms hp hms => ?_⟩
  · by_contra hne
    exact herr (hfull hne).2
  · rw [hempty h]
    simp
  · subst hp
    simp only [unmarshalConcatArgs] at hdec
    rw [storeMembers_parts_of_not_parts ms {} args hms hdec]

/-- C20, at the params `{"separator":","}`, which decode and have no `parts` member: the
error "parts must contain at least one string". -/
theorem concatText_error_iff_witness :
    concatText (.text (.obj [("separator", .str ",")])) =
      (.nil, some { Code := -32602, Message := "parts must contain at least one string",
                    Data := .nil }) :=
  (concatText_error_iff (.text (.obj [("separator", .str ",")]))
    { Parts := {}, Separator := "," } rfl).2.1 rfl

theorem intercalate_go_eq (sep acc : String) (parts : List String) :
    String.intercalate.go acc sep parts =
      match parts with
      | [] => acc
      | p :: rest => acc ++ sep ++ joinedWith sep (p :: rest) := by
  induction parts generalizing acc with
  | nil => rfl
  | cons p rest ih =>
    rw [String.intercalate.go, ih]
    cases rest with
    | nil => rfl
    | cons q rest2 => simp only [joinedWith, String.append_assoc]

theorem intercalate_eq_joinedWith (sep : String) (parts : List String) :
    String.intercalate sep parts = joinedWith sep parts := by
  cases parts with
  | nil => rfl
  | cons p rest =>
    rw [String.intercalate, intercalate_go_eq]
    cases rest with
    | nil => rfl
    | cons q rest2 => simp only [joinedWith, String.append_assoc]

theorem storeStrings_strs (parts : List String) :
    storeStrings [] (parts.map JSON.str) = some (parts, []) := by
  induction parts with
  | nil => rfl
  | cons p rest ih =>
    simp only [List.map_cons, storeStrings, List.tail_nil, ih]
    rfl

theorem unmarshalConcatArgs_parts (parts : List String) (sep : String) (hne : parts ≠ []) :
    unmarshalConcatArgs (.text (.obj [("parts", .arr (parts.map JSON.str)),
        ("separator", .str sep)])) =
      some { Parts := { elems := parts, spare := [] }, Separator := sep } ∧
    unmarshalConcatArgs (.text (.obj [("parts", .arr (parts.map JSON.str))])) =
      some { Parts := { elems := parts, spare := [] }, Separator := "" } := by
  have kp : keyIs "parts" "parts" = true := rfl
  have ks : keyIs "separator" "separator" = true := rfl
  have kps : keyIs "parts" "separator" = false := rfl
  obtain ⟨p, rest, rfl⟩ := List.exists_cons_of_ne_nil hne
  have hslice : storeStringSlice {} (.arr (JSON.str p :: rest.map JSON.str)) =
      some { elems := p :: rest, spare := [] } := by
    have h := storeStrings_strs (p :: rest)
    simp only [List.map_cons] at h ⊢
    simp only [storeStringSlice, List.nil_append, h, Option.map_some']
  constructor <;>
    simp [unmarshalConcatArgs, storeMembers, storeConcatField, storeString, kp, ks, kps, hslice]

/-- C21: for params that decode into `args` with a non-empty parts list, `concatText`
returns `{"text": t}` and no error, `t` being the parts joined in order with the separator
between consecutive parts, and the separator being a single space when the decoded one is
empty; so it is for the params object of a non-empty list of strings with a separator, and
without one; a one-element list gives that element unchanged. -/
theorem concatText_join :
    (∀ (params : RawMessage) (args : ConcatArgs), unmarshalConcatArgs params = some args →
      args.Parts.elems ≠ [] →
      concatText params =
        (.map [("text", .string (joinedWith (if args.Separator = "" then " " else args.Separator)
          args.Parts.elems))], none)) ∧
    (∀ (parts : List String) (sep : String), parts ≠ [] →
      concatText (.text (.obj [("parts", .arr (parts.map JSON.str)), ("separator", .str sep)])) =
        (.map [("text", .string (joinedWith (if sep = "" then " " else sep) parts))], none) ∧
      concatText (.text (.obj [("parts", .arr (parts.map JSON.str))])) =
        (.map [("text", .string (joinedWith " " parts))], none)) ∧
    (∀ (p sep : String), joinedWith sep [p] = p) ∧
    (∀ (p q sep : String) (rest : List String),
      joinedWith sep (p :: q :: rest) = p ++ sep ++ joinedWith sep (q :: rest)) := by
  have hgen : ∀ (params : RawMessage) (args : ConcatArgs),
      unmarshalConcatArgs params = some args → args.Parts.elems ≠ [] →
      concatText params =
        (.map [("text", .string (joinedWith (if args.Separator = "" then " " else args.Separator)
          args.Parts.elems))], none) := by
    intro params args hdec hne
    have hlen : args.Parts.elems.length ≠ 0 := fun h0 => hne (List.length_eq_zero.mp h0)
    simp only [concatText, hdec, hlen, if_false, intercalate_eq_joinedWith]
  refine ⟨hgen, fun parts sep hne => ⟨?_, ?_⟩, fun _ _ => rfl, fun _ _ _ _ => rfl⟩
  · exact hgen _ _ (unmarshalConcatArgs_parts parts sep hne).1 hne
  · exact hgen _ _ (unmarshalConcatArgs_parts parts sep hne).2 hne

/-- C21, at the parts `["hello","json-rpc"]`, with the separator `", "` and without
separator. -/
theorem concatText_join_witness :
    concatText (.text (.obj [("parts", .arr [.str "hello", .str "json-rpc"]),
        ("separator", .str ", ")])) =
      (.map [("text", .string "hello, json-rpc")], none) ∧
    concatText (.text (.obj [("parts", .arr [.str "hello", .str "json-rpc"])])) =
      (.map [("text", .string "hello json-rpc")], none) :=
  concatText_join.2.1 ["hello", "json-rpc"] ", " (by simp)

theorem storeFloats_nums (ns : List JNumber) (fs : List Float64)
    (h : List.Forall₂ (fun n f => parseFloat n = some f) ns fs) :
    storeFloats (ns.map JSON.num) = some fs := by
  induction h with
  | nil => rfl
  | cons hnf _ ih =>
    simp only [List.map_cons, storeFloats, storeFloat64, hnf, ih]

/-- C22: for params that are an array of numbers, each with its `float64` value,
`sumSlice` returns `{"sum": s}` and no error, `s` being the sum of the values from left
to right starting from `0`: the sum of no element is `0`, the sum of a list and one more
element is the sum of the list plus that element; the empty array gives the sum `0`. -/
theorem sumSlice_sum :
    (∀ (ns : List JNumber) (fs : List Float64),
      List.Forall₂ (fun n f => parseFloat n = some f) ns fs →
      sumSlice (.text (.arr (ns.map JSON.num))) =
        (.map [("sum", .float64 (fs.foldl Float64.add Float64.zero))], none)) ∧
    sumSlice (.text (.arr [])) = (.map [("sum", .float64 (.fin false 0 0))], none) ∧
    ([] : List Float64).foldl Float64.add Float64.zero = .fin false 0 0 ∧
    (∀ (fs : List Float64) (f : Float64),
      (fs ++ [f]).foldl Float64.add Float64.zero =
        (fs.foldl Float64.add Float64.zero).add f) := by
  refine ⟨fun ns fs h => ?_, rfl, rfl, fun fs f => ?_⟩
  · simp only [sumSlice, unmarshalFloats, storeFloats_nums ns fs h]
  · rw [List.foldl_append]
    rfl

/-- C22, at the params `[1, 2, 3, 4.5]`: the sum is `10.5`. -/
theorem sumSlice_sum_witness :
    Float64.toRat (.fin false 5910974510923776 (-49)) = 21 / 2 ∧
    [Float64.fin false 4503599627370496 (-52), .fin false 4503599627370496 (-51),
      .fin false 6755399441055744 (-51), .fin false 5066549580791808 (-50)].foldl
        Float64.add Float64.zero = .fin false 5910974510923776 (-49) ∧
    sumSlice (.text (.arr ([⟨false, 1, 0⟩, ⟨false, 2, 0⟩, ⟨false, 3, 0⟩,
        ⟨false, 45, -1⟩].map JSON.num))) =
      (.map [("sum", .float64
        ([Float64.fin false 4503599627370496 (-52), .fin false 4503599627370496 (-51),
          .fin false 6755399441055744 (-51), .fin false 5066549580791808 (-50)].foldl
            Float64.add Float64.zero))], none) :=
  ⟨by norm_num [Float64.toRat], by rfl,
    sumSlice_sum.1 [⟨false, 1, 0⟩, ⟨false, 2, 0⟩, ⟨false, 3, 0⟩, ⟨false, 45, -1⟩]
      [.fin false 4503599627370496 (-52), .fin false 4503599627370496 (-51),
        .fin false 6755399441055744 (-51), .fin false 5066549580791808 (-50)]
      (.cons (by rfl) (.cons (by rfl) (.cons (by rfl) (.cons (by rfl) .nil))))⟩

/-! ## Single requests and batches -/

theorem storeRequests_append (a b : List JSON) (xs ys : List rpcRequest)
    (ha : storeRequests a = some xs) (hb : storeRequests b = some ys) :
    storeRequests (a ++ b) = some (xs ++ ys) := by
  induction a generalizing xs with
  | nil =>
    simp only [storeRequests, Option.some.injEq] at ha
    subst ha
    simpa using hb
  | cons j rest ih =>
    simp only [storeRequests] at ha
    cases hj : storeRequest {} j with
    | none => simp [hj] at ha
    | some r =>
      cases hrest : storeRequests rest with
      | none => simp [hj, hrest] at ha
      | some rs =>
        simp only [hj, hrest, Option.some.injEq] at ha
        subst ha
        rw [List.cons_append, List.cons_append, storeRequests, hj, ih rs hrest]

/-- C23: a request object that decodes to `r` gets, alone, the response of
`dispatchRequest` on `r`, and, as the one-element batch, the one-element list of that
response; both paths give no content exactly when `dispatchRequest` returns no response. The
responses collected for `xs ++ ys` are those for `xs` followed by those for `ys`, so the
entries of the siblings of an element do not depend on it; and so for the batch of two
arrays that decode. -/
theorem single_batch_agree (impl : Float64 → Int) (registry : Registry) :
    (∀ (j : JSON) (r : rpcRequest), storeRequest {} j = some r →
      rpcHandler impl registry { Method := "POST", Body := some (.text j) } =
        (match dispatchRequest impl registry r with
         | none => { status := 204, payload := none }
         | some resp => { status := 200, payload := some (.response resp) }) ∧
      rpcHandler impl registry { Method := "POST", Body := some (.text (.arr [j])) } =
        (match dispatchRequest impl registry r with
         | none => { status := 204, payload := none }
         | some resp => { status := 200, payload := some (.responses [resp]) }) ∧
      (rpcHandler impl registry { Method := "POST", Body := some (.text (.arr [j])) } =
          { status := 204, payload := none } ↔
        dispatchRequest impl registry r = none)) ∧
    (∀ xs ys : List rpcRequest,
      collectResponses impl registry (xs ++ ys) =
        collectResponses impl registry xs ++ collectResponses impl registry ys) ∧
    (∀ (pre post : List rpcRequest) (x : rpcRequest),
      collectResponses impl registry (pre ++ x :: post) =
        collectResponses impl registry pre ++ (dispatchRequest impl registry x).toList ++
          collectResponses impl registry post) ∧
    (∀ (a b : List JSON) (xs ys : List rpcRequest),
      storeRequests a = some xs → storeRequests b = some ys →
      handleBatch impl registry (.text (.arr (a ++ b))) =
        (if (collectResponses impl registry xs ++ collectResponses impl registry ys).length = 0
         then { status := 204, payload := none }
         else { status := 200,
                payload := some (.responses
                  (collectResponses impl registry xs ++ collectResponses impl registry ys)) })) := by
  have happ : ∀ xs ys : List rpcRequest,
      collectResponses impl registry (xs ++ ys) =
        collectResponses impl registry xs ++ collectResponses impl registry ys := by
    intro xs ys
    simp only [collectResponses_eq, List.filterMap_append]
  have hone : ∀ x : rpcRequest,
      collectResponses impl registry [x] = (dispatchRequest impl registry x).toList := by
    intro x
    rw [collectResponses_eq]
    cases h : dispatchRequest impl registry x <;> simp [List.filterMap_cons, h]
  refine ⟨fun j r hj => ?_, happ, fun pre post x => ?_, fun a b xs ys ha hb => ?_⟩
  · have hsingle : rpcHandler impl registry { Method := "POST", Body := some (.text j) } =
        (match dispatchRequest impl registry r with
         | none => { status := 204, payload := none }
         | some resp => { status := 200, payload := some (.response resp) }) := by
      have hb : (Body.text j).hasBracket = false := by
        cases j with
        | arr items => simp [storeRequest] at hj
        | _ => rfl
      simp only [rpcHandler, Body.isBlank, hb, Body.bytes, unmarshalRequest, hj]
      cases dispatchRequest impl registry r <;> rfl
    have hbatch : rpcHandler impl registry
        { Method := "POST", Body := some (.text (.arr [j])) } =
        (match dispatchRequest impl registry r with
         | none => { status := 204, payload := none }
         | some resp => { status := 200, payload := some (.responses [resp]) }) := by
      have hdec : unmarshalRequests (.text (.arr [j])) = some [r] := by
        simp only [unmarshalRequests, storeRequests, hj]
      simp only [rpcHandler, Body.isBlank, Body.hasBracket, Body.bytes, handleBatch, hdec, hone]
      cases dispatchRequest impl registry r <;> rfl
    refine ⟨hsingle, hbatch, ?_⟩
    rw [hbatch]
    cases dispatchRequest impl registry r <;> simp
  · rw [happ, show x :: post = [x] ++ post from rfl, happ, hone, List.append_assoc]
  · have hdec : unmarshalRequests (.text (.arr (a ++ b))) = some (xs ++ ys) :=
      storeRequests_append a b xs ys ha hb
    simp only [handleBatch, hdec, happ, noContent, writeJSON]

/-- C23, at the request `math.divide` with id `3`, alone and as a one-element batch. -/
theorem single_batch_agree_witness :
    rpcHandler (fun _ => 0) methodRegistry
        { Method := "POST",
          Body := some (.text (.obj [("jsonrpc", .str "2.0"), ("method", .str "math.divide"),
            ("id", .num ⟨false, 3, 0⟩)])) } =
      { status := 200,
        payload := some (.response
          { JSONRPC := "2.0", Result := .nil,
            Error := some { Code := -32601, Message := "method not found", Data := .nil },
            ID := .int64 3 }) } ∧
    rpcHandler (fun _ => 0) methodRegistry
        { Method := "POST",
          Body := some (.text (.arr [.obj [("jsonrpc", .str "2.0"),
            ("method", .str "math.divide"), ("id", .num ⟨false, 3, 0⟩)]])) } =
      { status := 200,
        payload := some (.responses
          [{ JSONRPC := "2.0", Result := .nil,
             Error := some { Code := -32601, Message := "method not found", Data := .nil },
             ID := .int64 3 }]) } :=
  ⟨((single_batch_agree (fun _ => 0) methodRegistry).1
      (.obj [("jsonrpc", .str "2.0"), ("method", .str "math.divide"),
        ("id", .num ⟨false, 3, 0⟩)])
      { JSONRPC := "2.0", Method := "math.divide", ID := some (.text (.num ⟨false, 3, 0⟩)) }
      (by rfl)).1,
    ((single_batch_agree (fun _ => 0) methodRegistry).1
      (.obj [("jsonrpc", .str "2.0"), ("method", .str "math.divide"),
        ("id", .num ⟨false, 3, 0⟩)])
      { JSONRPC := "2.0", Method := "math.divide", ID := some (.text (.num ⟨false, 3, 0⟩)) }
      (by rfl)).2.1⟩

end JsonRpc
